import Mathlib

/-!
Verification of the PASC consensus engine and the stripe decomposition of the
ReconfigurableCircuitsInAmoebotModel repository.

The embedding below translates the Python sources:
  * `script/pasc_linear.py`   — plain-chain PASC (`run_pasc` / `send_beep`);
  * `script/global_maxima.py` — stripe decomposition (`run_global_maxima`) and
    the stripe-level PASC (`send_beep`), plus `stripe_id`;
  * `script/stripe.py`        — `directional_coord`.

Python strings of bits ("0"/"1" prepended at the front) are modelled as
`List Bool` with the most significant bit at the head (`false` = "0",
`true` = "1").  Python ints are `Int`; loop counters are `Nat`.  The
`while active_sum != 1` loop is modelled with explicit fuel returning
`Option`; termination theorems exhibit a fuel for which the run returns
`some`.
-/

/-- State of one chain segment, mirroring the per-node dict attributes
`primary`, `secondary`, `active`, `bits` set up in `run_pasc`. -/
structure Seg where
  primary : Bool
  secondary : Bool
  active : Bool
  bits : List Bool
deriving DecidableEq, Repr

instance : Inhabited Seg := ⟨⟨false, false, false, []⟩⟩

/-- One step of the right sweep of `send_beep` (pasc_linear.py):
the four-case table reads the already-updated left neighbour `prev`
(`node_list[i-1]`) and the current segment's own `active` flag
(`node_list[i]['active']`).  The `Nat` is the `step_total` increment. -/
def rightStep (prev cur : Seg) : Seg × Nat :=
  if prev.primary && cur.active then ({cur with primary := false, secondary := true}, 1)
  else if prev.primary && !cur.active then ({cur with primary := true, secondary := false}, 1)
  else if prev.secondary && cur.active then ({cur with primary := true, secondary := false}, 1)
  else if prev.secondary && !cur.active then ({cur with primary := false, secondary := true}, 1)
  else (cur, 0)

/-- One step of the left sweep of `send_beep` (pasc_linear.py).  Note that the
source reads `node_list[i+1]['active']` — the NEIGHBOUR's active flag — in all
four conditions, not the current segment's own flag. -/
def leftStep (nb cur : Seg) : Seg × Nat :=
  if nb.primary && nb.active then ({cur with primary := false, secondary := true}, 1)
  else if nb.primary && !nb.active then ({cur with primary := true, secondary := false}, 1)
  else if nb.secondary && nb.active then ({cur with primary := true, secondary := false}, 1)
  else if nb.secondary && !nb.active then ({cur with primary := false, secondary := true}, 1)
  else (cur, 0)

/-- Right sweep: `for i in range(ref_node_index + 1, len(node_list))`, each step
consuming the updated state of `i-1` (the carried `prev`).  (The guard
`if i != 0` in the source is always true there since `i ≥ ref+1 ≥ 1`.) -/
def beepRight : Seg → List Seg → List Seg × Nat
  | _, [] => ([], 0)
  | prev, c :: rest =>
    let p := rightStep prev c
    let q := beepRight p.1 rest
    (p.1 :: q.1, p.2 + q.2)

/-- Left sweep: `for i in range(ref_node_index - 1, -1, -1)`; the input list is
in processing order `ref-1, ref-2, …, 0`, and the carried `nb` is the updated
segment `i+1`. -/
def beepLeft : Seg → List Seg → List Seg × Nat
  | _, [] => ([], 0)
  | nb, c :: rest =>
    let p := leftStep nb c
    let q := beepLeft p.1 rest
    (p.1 :: q.1, p.2 + q.2)

/-- Both sweeps of one round of `send_beep`.  The right sweep rewrites
positions `ref+1 … n-1`; the left sweep then reads the updated list (`S1`)
and rewrites positions `ref-1 … 0`. -/
def sweepPhase (ref : Nat) (S : List Seg) : List Seg × Nat :=
  let r := beepRight (S.getD ref default) (S.drop (ref + 1))
  let S1 := S.take (ref + 1) ++ r.1
  let l := beepLeft (S1.getD ref default) ((S1.take ref).reverse)
  (l.1.reverse ++ S1.drop ref, r.2 + l.2)

/-- Bit emission (`#Add bits` loop): prepend "0" if primary, else "1" if
secondary, else leave the bits unchanged. -/
def addBits (s : Seg) : Seg :=
  if s.primary then {s with bits := false :: s.bits}
  else if s.secondary then {s with bits := true :: s.bits}
  else s

/-- Deactivation and reset loop: a segment with `active and secondary` becomes
inactive; then both flags are cleared. -/
def deactivateReset (s : Seg) : Seg :=
  { s with active := s.active && !s.secondary, primary := false, secondary := false }

/-- One full iteration of the `while active_sum != 1` loop body of
`send_beep` (pasc_linear.py): both sweeps, bit emission, deactivation+reset,
then `ref_node['primary'] = True`.  Returns the updated list and the
`step_total` increment. -/
def pascRound (ref : Nat) (S : List Seg) : List Seg × Nat :=
  let sw := sweepPhase ref S
  let S3 := sw.1.map addBits
  let S4 := S3.map deactivateReset
  (S4.set ref {S4.getD ref default with primary := true}, sw.2)

/-- The state-only part of a round. -/
def pascStep (ref : Nat) (S : List Seg) : List Seg :=
  (pascRound ref S).1

/-- `active_sum`: the number of segments with `active == True`. -/
def activeSum (S : List Seg) : Nat :=
  S.countP (fun s => s.active)

/-- The `while active_sum != 1` loop of `send_beep`, with explicit fuel.
Accumulates `pasc_iterations` and `step_total`; returns
`some (final list, iterations, steps)` when the loop exits within the fuel. -/
def sendBeepAux (ref : Nat) : Nat → List Seg → Nat → Nat → Option (List Seg × Nat × Nat)
  | 0, S, iters, steps => if activeSum S = 1 then some (S, iters, steps) else none
  | fuel + 1, S, iters, steps =>
    if activeSum S = 1 then some (S, iters, steps)
    else
      let p := pascRound ref S
      sendBeepAux ref fuel p.1 (iters + 1) (steps + p.2)

/-- Fresh segments built by `run_pasc`: every node gets
`primary=False, secondary=False, active=True, bits=""`. -/
def initSegs (n : Nat) : List Seg :=
  List.replicate n ⟨false, false, true, []⟩

/-- The chain state as `send_beep` first sees it: fresh segments with the
reference segment's `primary` already set (`ref_node['primary'] = True`). -/
def initState (n ref : Nat) : List Seg :=
  (initSegs n).set ref ⟨true, false, true, []⟩

/-- `run_pasc` followed by `send_beep` on a chain of `n` single-node segments
(graph nodes in id order `0 … n-1`) with reference index `ref`. -/
def sendBeep (n ref fuel : Nat) : Option (List Seg × Nat × Nat) :=
  sendBeepAux ref fuel (initState n ref) 0 0

/-- Linear offset of position `i` from the reference index. -/
def offsetDist (ref i : Nat) : Nat := max (ref - i) (i - ref)

/-- The state after `k` executed rounds of a run on a chain of `n` segments
with reference `ref` (iterating the loop body from the initial state). -/
def boundary (n ref : Nat) : Nat → List Seg
  | 0 => initState n ref
  | k + 1 => pascStep ref (boundary n ref k)

/-- `directional_coord` from script/stripe.py.  The Python function has no
`else` branch: an unrecognized direction returns `None`, modelled as `none`. -/
def directionalCoord (q r : Int) (direction : String) : Option Int :=
  if direction = "NE" ∨ direction = "SW" then some r
  else if direction = "NW" ∨ direction = "SE" then some (r + q)
  else if direction = "N" ∨ direction = "S" then some q
  else if direction = "W" ∨ direction = "E" then some (q + 2 * r)
  else none

/-- `stripe_id` from script/global_maxima.py.  Note the final
`else: return q  # default` branch: an unrecognized direction silently falls
back to the stripe key `q`. -/
def stripeId (q r : Int) (direction : String) : Int :=
  if direction = "N" ∨ direction = "S" then q
  else if direction = "NE" ∨ direction = "SW" then r
  else if direction = "NW" ∨ direction = "SE" then q + r
  else if direction = "E" ∨ direction = "W" then q + 2 * r
  else q

/-- The `alternate_direction` selection at the top of `run_global_maxima`
(initialised to `''`, so an unrecognized direction yields the empty string). -/
def alternateDirection (direction : String) : String :=
  if direction = "N" ∨ direction = "S" then "E"
  else if direction = "E" ∨ direction = "W" then "N"
  else if direction = "NE" ∨ direction = "SW" then "NW"
  else if direction = "NW" ∨ direction = "SE" then "NE"
  else ""

/-- The eight direction tokens accepted by the CLI wrappers. -/
def recognizedDirs : List String := ["N", "S", "E", "W", "NE", "NW", "SE", "SW"]

/-- The directions whose stripe indices are reversed:
`if(direction in ('S', 'W', 'SW', 'SE'))`. -/
def revDirs : List String := ["S", "W", "SW", "SE"]

/-- A lattice node: integer id and axial coordinates, as loaded by
`load_from_file`. -/
structure Node where
  id : Int
  q : Int
  r : Int
deriving DecidableEq, Repr

/-- A member entry of a stripe group:
`{'node': node, 'primary': False, 'secondary': False, 'active': True, 'bits': ""}`. -/
structure Item where
  node : Int
  primary : Bool
  secondary : Bool
  active : Bool
  bits : List Bool
deriving DecidableEq, Repr

instance : Inhabited Item := ⟨⟨0, false, false, false, []⟩⟩

/-- The fresh group entry appended for one node in `run_global_maxima`. -/
def mkItem (nd : Node) : Item := ⟨nd.id, false, false, true, []⟩

/-- `groups.setdefault(sid, []).append(item)`: append the item to the entry of
`key` if present (first matching entry), else append a new `(key, [item])`
entry at the end — dicts preserve insertion order. -/
def insertG (gs : List (Int × List Item)) (key : Int) (it : Item) : List (Int × List Item) :=
  match gs with
  | [] => [(key, [it])]
  | (k, v) :: rest => if k = key then (k, v ++ [it]) :: rest else (k, v) :: insertG rest key it

/-- The grouping loop of `run_global_maxima`: fold the nodes (in graph order)
into a dict keyed by `keyf`. -/
def buildGroups (nodes : List Node) (keyf : Node → Int) : List (Int × List Item) :=
  nodes.foldl (fun gs nd => insertG gs (keyf nd) (mkItem nd)) []

/-- Dictionary lookup (`groups[sid]`): value of the first entry with the given
key, `[]` if absent. -/
def assocGet : List (Int × List Item) → Int → List Item
  | [], _ => []
  | (k, v) :: rest, key => if k = key then v else assocGet rest key

/-- The `unique_sids` accumulation: raw stripe ids under the alternate
direction, in order of first appearance. -/
def uniqueSids (nodes : List Node) (alt : String) : List Int :=
  nodes.foldl (fun acc nd => if stripeId nd.q nd.r alt ∈ acc then acc else acc ++ [stripeId nd.q nd.r alt]) []

/-- The `groups` dict built by `run_global_maxima`: nodes are keyed by the raw
stripe id under the alternate direction, transformed to
`sid_count - sid - 1` when the requested direction is in `('S','W','SW','SE')`. -/
def gmGroupsAssoc (nodes : List Node) (direction : String) : List (Int × List Item) :=
  let alt := alternateDirection direction
  let sidCount : Int := (uniqueSids nodes alt).length
  if direction ∈ revDirs then
    buildGroups nodes (fun nd => sidCount - stripeId nd.q nd.r alt - 1)
  else
    buildGroups nodes (fun nd => stripeId nd.q nd.r alt)

/-- The reindexed `new_groups` of `run_global_maxima`: keys sorted ascending
and densely renumbered `0 … k-1`; position `j` in the list is the group whose
(possibly reversed) key is the `j`-th smallest. -/
def gmGroups (nodes : List Node) (direction : String) : List (List Item) :=
  let assoc := gmGroupsAssoc nodes direction
  (List.insertionSort (· ≤ ·) (assoc.map Prod.fst)).map (fun k => assocGet assoc k)

/-- Set `primary` on every item of a group (one `for item in …` loop). -/
def setAllP (v : Bool) (g : List Item) : List Item :=
  g.map (fun it => {it with primary := v})

/-- Set `secondary` on every item of a group. -/
def setAllS (w : Bool) (g : List Item) : List Item :=
  g.map (fun it => {it with secondary := w})

/-- Both flag loops of one case of the stripe-level sweep: first all
`primary`, then all `secondary`. -/
def setFlags (v w : Bool) (g : List Item) : List Item :=
  setAllS w (setAllP v g)

/-- Right sweep of `send_beep` (global_maxima.py): decisions read
`groups[i-1][0]` (the head of the already-updated previous group) and
`groups[i][0]['active']`; each applied case adds `len(group)` to `step_total`
(the increment sits inside the first per-item loop). -/
def gBeepRight : Item → List (List Item) → List (List Item) × Nat
  | _, [] => ([], 0)
  | ph, g :: rest =>
    let gh := g.headD default
    let p :=
      if ph.primary && gh.active then (setFlags false true g, g.length)
      else if ph.primary && !gh.active then (setFlags true false g, g.length)
      else if ph.secondary && gh.active then (setFlags true false g, g.length)
      else if ph.secondary && !gh.active then (setFlags false true g, g.length)
      else (g, 0)
    let q := gBeepRight (p.1.headD default) rest
    (p.1 :: q.1, p.2 + q.2)

/-- Left sweep of `send_beep` (global_maxima.py): all four conditions read
`groups[i+1][0]` — the neighbouring group's head, including ITS `active`
flag (same asymmetry as in pasc_linear.py). -/
def gBeepLeft : Item → List (List Item) → List (List Item) × Nat
  | _, [] => ([], 0)
  | nh, g :: rest =>
    let p :=
      if nh.primary && nh.active then (setFlags false true g, g.length)
      else if nh.primary && !nh.active then (setFlags true false g, g.length)
      else if nh.secondary && nh.active then (setFlags true false g, g.length)
      else if nh.secondary && !nh.active then (setFlags false true g, g.length)
      else (g, 0)
    let q := gBeepLeft (p.1.headD default) rest
    (p.1 :: q.1, p.2 + q.2)

/-- The merged `# Add bits` loop of global_maxima.py for one group: bit
emission from the head's flags applied to every item, deactivation if the head
is `active and secondary`, then both flags cleared on every item. -/
def gFinishGroup (g : List Item) : List Item :=
  let h := g.headD default
  let g1 :=
    if h.primary then g.map (fun it => {it with bits := false :: it.bits})
    else if h.secondary then g.map (fun it => {it with bits := true :: it.bits})
    else g
  let g2 := if h.active && h.secondary then g1.map (fun it => {it with active := false}) else g1
  setAllS false (setAllP false g2)

/-- One iteration of the stripe-level `while active_sum != 1` loop: both
sweeps, the per-group finish loop, then re-assert `primary` on the reference
group.  Returns the groups, the `step_total` increment and the
`step_all_lines` increment (one per visited index, case applied or not). -/
def gRound (find : Nat) (G : List (List Item)) : List (List Item) × Nat × Nat :=
  let refHead := (G.getD find []).headD default
  let r := gBeepRight refHead (G.drop (find + 1))
  let G1 := G.take (find + 1) ++ r.1
  let l := gBeepLeft ((G1.getD find []).headD default) ((G1.take find).reverse)
  let G2 := l.1.reverse ++ G1.drop find
  let G3 := G2.map gFinishGroup
  (G3.set find (setAllP true (G3.getD find [])), r.2 + l.2,
    (G.drop (find + 1)).length + (G.take find).length)

/-- `active_sum` at the stripe level: groups whose first item is active. -/
def gActiveSum (G : List (List Item)) : Nat :=
  G.countP (fun g => (g.headD default).active)

/-- The stripe-level loop with fuel, accumulating `pasc_iterations`,
`step_all_lines` and `step_total`. -/
def gSendBeepAux (find : Nat) :
    Nat → List (List Item) → Nat → Nat → Nat → Option (List (List Item) × Nat × Nat × Nat)
  | 0, G, iters, lines, steps => if gActiveSum G = 1 then some (G, iters, lines, steps) else none
  | fuel + 1, G, iters, lines, steps =>
    if gActiveSum G = 1 then some (G, iters, lines, steps)
    else
      let p := gRound find G
      gSendBeepAux find fuel p.1 (iters + 1) (lines + p.2.2) (steps + p.2.1)

/-- `run_global_maxima` followed by `send_beep` (global_maxima.py): decompose
into stripes, locate the group containing the reference node id (`find_key`),
set its items primary, and run the loop. -/
def gSendBeep (nodes : List Node) (direction : String) (refId : Int) (fuel : Nat) :
    Option (List (List Item) × Nat × Nat × Nat) :=
  let G := gmGroups nodes direction
  let find := G.findIdx (fun g => g.any (fun it => it.node = refId))
  gSendBeepAux find fuel (G.set find (setAllP true (G.getD find []))) 0 0 0

/-- Overwrite a segment's role flags: `primary = !b`, `secondary = b`. -/
def roleSet (s : Seg) (b : Bool) : Seg :=
  { s with primary := !b, secondary := b }

/-- Role-scan form of the right sweep: when the carried neighbour has exactly
one of primary/secondary set, each swept segment toggles the incoming role by
its own `active` flag. -/
def rolesR (r0 : Bool) : List Seg → List Seg
  | [] => []
  | s :: t => roleSet s (r0 ^^ s.active) :: rolesR (r0 ^^ s.active) t

/-- Role-scan form of the left sweep of the source: each swept segment toggles
the incoming role by the NEIGHBOUR's `active` flag (the carried `a`). -/
def rolesL (r0 a0 : Bool) : List Seg → List Seg
  | [] => []
  | s :: t => roleSet s (r0 ^^ a0) :: rolesL (r0 ^^ a0) s.active t

/-- The shape of the chain state at every round boundary of a run with
reference `ref`: after `k` executed rounds only the reference is primary,
nothing is secondary, and exactly the positions whose offset from `ref` is
divisible by `2^k` are still active. -/
structure SInv (n ref k : Nat) (S : List Seg) : Prop where
  len : S.length = n
  prim : ∀ i, i < n → (S.getD i default).primary = decide (i = ref)
  sec : ∀ i, i < n → (S.getD i default).secondary = false
  act : ∀ i, i < n → (S.getD i default).active = decide (offsetDist ref i % 2 ^ k = 0)

/-- The role (false = primary, true = secondary) that the sweeps of one round
assign to position `i` when the active segments are exactly those whose offset
from `ref` is divisible by `2^k`. -/
def roundRole (ref k i : Nat) : Bool :=
  if i < ref then !decide ((ref - i - 1) / 2 ^ k % 2 = 1)
  else decide ((i - ref) / 2 ^ k % 2 = 1)

/-- The segment-level view of one item: its flags and bits. -/
def itemSeg (it : Item) : Seg :=
  ⟨it.primary, it.secondary, it.active, it.bits⟩

/-- The segment-level view of one stripe group: the flags and bits of its
first item (the entry every decision of the stripe-level `send_beep` reads). -/
def projG (g : List Item) : Seg :=
  itemSeg (g.headD default)

/-- Modelled from the spec: the binary representation of `val`, MSB first,
zero-padded to `len` digits — the value the spec's guarantee assigns to a
segment's final `bits`. -/
def specBinaryMSB (len val : Nat) : List Bool :=
  (List.range len).map (fun t => decide (val / 2 ^ (len - 1 - t) % 2 = 1))

/-- Modelled from the spec: the left-sweep transition table of §4.3, the
"exact mirror" of the right sweep — segment `i`'s new flags are determined by
segment `i+1`'s primary/secondary flags together with segment `i`'s OWN
`active` flag. -/
def specMirrorLeftStep (nb cur : Seg) : Seg × Nat :=
  if nb.primary && cur.active then ({cur with primary := false, secondary := true}, 1)
  else if nb.primary && !cur.active then ({cur with primary := true, secondary := false}, 1)
  else if nb.secondary && cur.active then ({cur with primary := true, secondary := false}, 1)
  else if nb.secondary && !cur.active then ({cur with primary := false, secondary := true}, 1)
  else (cur, 0)

/-! ### Concrete claim theorems -/

/-- Claim C6: a plain chain of 4 single-node segments (ids 0..3) with
reference index 0 terminates after exactly 2 rounds with final bits
"00","01","10","11" for nodes 0,1,2,3 and total transition-step count 6. -/
theorem claim_C6_chain4 :
    sendBeep 4 0 2 =
      some ([⟨true, false, true, [false, false]⟩,
             ⟨false, false, false, [false, true]⟩,
             ⟨false, false, false, [true, false]⟩,
             ⟨false, false, false, [true, true]⟩], 2, 6) := by
  rfl

/-- Claim C1 (failing input): on a chain of 3 segments with reference index 2,
the run terminates after 2 rounds, but segment 1's final bits are "11"
([true, true]) whereas the binary representation of its offset
`|1 - 2| = 1`, zero-padded to 2 rounds, is "01" ([false, true]).  The left
sweep reads the NEIGHBOUR's `active` flag, so bits recorded for an already
eliminated left-side segment after its elimination round are flipped. -/
theorem claim_C1_left_bits_diverge :
    (sendBeep 3 2 2).map (fun out => (out.1.getD 1 default).bits) = some [true, true]
    ∧ specBinaryMSB 2 (offsetDist 2 1) = [false, true]
    ∧ ([true, true] : List Bool) ≠ [false, true] := by
  refine ⟨rfl, by decide, by decide⟩

/-- Claim C2 (failing input): entering round 2 of the run on 3 segments with
reference 2, segment 1 is inactive while its neighbour (segment 2) is primary
and active.  The source's left-sweep step makes segment 1 secondary (it reads
the neighbour's `active` flag), while the spec's mirror table — which reads
segment 1's OWN `active` flag — would make it primary. -/
theorem claim_C2_left_sweep_not_mirror :
    ((boundary 3 2 1).getD 1 default).active = false
    ∧ ((boundary 3 2 1).getD 2 default).primary = true
    ∧ ((boundary 3 2 1).getD 2 default).active = true
    ∧ (leftStep ((boundary 3 2 1).getD 2 default) ((boundary 3 2 1).getD 1 default)).1.secondary
        = true
    ∧ (specMirrorLeftStep ((boundary 3 2 1).getD 2 default)
        ((boundary 3 2 1).getD 1 default)).1.primary = true
    ∧ leftStep ((boundary 3 2 1).getD 2 default) ((boundary 3 2 1).getD 1 default)
        ≠ specMirrorLeftStep ((boundary 3 2 1).getD 2 default)
            ((boundary 3 2 1).getD 1 default) := by
  decide

/-- Claim C5 is false as stated: on the two-node set {(0,(0,0)), (1,(1,0))}
with direction "N" and reference node 0, the run terminates with the stripe of
dense index 0 (the reference stripe) surviving, while the directional
extremum is the stripe of highest dense index k-1 = 1, which is eliminated. -/
theorem claim_C5_counterexample :
    gSendBeep [⟨0, 0, 0⟩, ⟨1, 1, 0⟩] "N" 0 1 =
      some ([[⟨0, true, false, true, [false]⟩], [⟨1, false, false, false, [true]⟩]], 1, 1, 1)
    ∧ (gmGroups [⟨0, 0, 0⟩, ⟨1, 1, 0⟩] "N").length = 2 := by
  exact ⟨rfl, rfl⟩

/-- Claim C10 is false as stated: invoked with the unrecognized direction
token "X", `stripe_id` silently substitutes the default stripe key `q`
(no "InvalidDirection" failure inside the component), `directional_coord`
silently returns `None`, and the decomposition happily produces stripes
keyed by `q`. -/
theorem claim_C10_counterexample :
    stripeId 2 3 "X" = 2 ∧ directionalCoord 2 3 "X" = none
    ∧ gmGroups [⟨0, 0, 0⟩, ⟨1, 1, 1⟩] "X" =
        [[⟨0, false, false, true, []⟩], [⟨1, false, false, true, []⟩]] := by
  refine ⟨by decide, by decide, rfl⟩

/-- Claim C10 amended: decomposition never fails on an unrecognized direction
token; `stripe_id` substitutes the default key `q` inside the component, and
`directional_coord` returns `None` — the only substitution of a valid
direction value happens in the CLI caller. -/
theorem claim_C10_amended (q r : Int) (d : String) (h : d ∉ recognizedDirs) :
    stripeId q r d = q ∧ directionalCoord q r d = none := by
  have h8 : ¬(d = "N") ∧ ¬(d = "S") ∧ ¬(d = "E") ∧ ¬(d = "W") ∧ ¬(d = "NE")
      ∧ ¬(d = "NW") ∧ ¬(d = "SE") ∧ ¬(d = "SW") := by
    simpa [recognizedDirs] using h
  obtain ⟨h1, h2, h3, h4, h5, h6, h7, h8⟩ := h8
  constructor
  · simp [stripeId, h1, h2, h3, h4, h5, h6, h7, h8]
  · simp [directionalCoord, h1, h2, h3, h4, h5, h6, h7, h8]

/-- Witness for the amended claim C10 at the concrete token "X". -/
theorem claim_C10_amended_witness :
    ("X" ∉ recognizedDirs) ∧ (stripeId 2 3 "X" = 2 ∧ directionalCoord 2 3 "X" = none) :=
  ⟨by decide, claim_C10_amended 2 3 "X" (by decide)⟩
/-! ### Sweep characterization -/

theorem rightStep_active (p c : Seg) : (rightStep p c).1.active = c.active := by
  unfold rightStep
  repeat' split
  all_goals rfl

theorem leftStep_active (nb c : Seg) : (leftStep nb c).1.active = c.active := by
  unfold leftStep
  repeat' split
  all_goals rfl

theorem map_active_beepRight (xs : List Seg) : ∀ c : Seg,
    (beepRight c xs).1.map Seg.active = xs.map Seg.active := by
  induction xs with
  | nil => intro c; rfl
  | cons s t ih =>
    intro c
    simp only [beepRight, List.map_cons]
    rw [ih, rightStep_active]

theorem map_active_beepLeft (xs : List Seg) : ∀ c : Seg,
    (beepLeft c xs).1.map Seg.active = xs.map Seg.active := by
  induction xs with
  | nil => intro c; rfl
  | cons s t ih =>
    intro c
    simp only [beepLeft, List.map_cons]
    rw [ih, leftStep_active]

theorem map_active_sweepPhase (ref : Nat) (S : List Seg) :
    (sweepPhase ref S).1.map Seg.active = S.map Seg.active := by
  have hS1 : List.map Seg.active
      (S.take (ref + 1) ++ (beepRight (S.getD ref default) (S.drop (ref + 1))).1)
      = List.map Seg.active S := by
    rw [List.map_append, map_active_beepRight, ← List.map_append, List.take_append_drop]
  simp only [sweepPhase]
  rw [List.map_append, List.map_reverse, map_active_beepLeft, List.map_reverse,
    List.reverse_reverse, ← List.map_append, List.take_append_drop]
  exact hS1

theorem sweepPhase_length (ref : Nat) (S : List Seg) :
    (sweepPhase ref S).1.length = S.length := by
  have h := congrArg List.length (map_active_sweepPhase ref S)
  simpa using h

theorem pascStep_length (ref : Nat) (S : List Seg) :
    (pascStep ref S).length = S.length := by
  unfold pascStep pascRound
  simp [sweepPhase_length]

theorem boundary_length (n ref k : Nat) : (boundary n ref k).length = n := by
  induction k with
  | zero => simp [boundary, initState, initSegs]
  | succ k ih => simp [boundary, pascStep_length, ih]

theorem parity_cons (b : Bool) (c : Nat) :
    decide (((if b then 1 else 0) + c) % 2 = 1) = (b ^^ decide (c % 2 = 1)) := by
  cases b <;> rcases Nat.mod_two_eq_zero_or_one c with h | h <;>
    simp [Nat.add_mod, h]

theorem roleSet_eq_self (s : Seg) (b : Bool) (h1 : s.primary = !b) (h2 : s.secondary = b) :
    roleSet s b = s := by
  cases s
  simp only [roleSet] at *
  simp_all

theorem rolesR_getElem (xs : List Seg) : ∀ (r0 : Bool) (j : Nat),
    (rolesR r0 xs)[j]? = (xs[j]?).map (fun s =>
      roleSet s (r0 ^^ decide ((xs.take (j + 1)).countP (fun u => u.active) % 2 = 1))) := by
  induction xs with
  | nil => intro r0 j; simp [rolesR]
  | cons s t ih =>
    intro r0 j
    cases j with
    | zero =>
      simp only [rolesR, List.getElem?_cons_zero, Option.map_some', List.take_succ_cons,
        List.take_zero, List.countP_cons, List.countP_nil]
      cases hsa : s.active <;> simp [hsa]
    | succ j =>
      simp only [rolesR, List.getElem?_cons_succ, ih (r0 ^^ s.active) j,
        List.take_succ_cons, List.countP_cons]
      cases hxj : t[j]? with
      | none => rfl
      | some x =>
        simp only [Option.map_some']
        congr 1
        have : (t.take (j + 1)).countP (fun u => u.active) + (if s.active = true then 1 else 0)
            = (if s.active then 1 else 0) + (t.take (j + 1)).countP (fun u => u.active) := by
          omega
        rw [this, parity_cons, ← Bool.xor_assoc]

theorem rolesL_getElem (xs : List Seg) : ∀ (r0 a0 : Bool) (j : Nat),
    (rolesL r0 a0 xs)[j]? = (xs[j]?).map (fun s =>
      roleSet s ((r0 ^^ a0) ^^ decide ((xs.take j).countP (fun u => u.active) % 2 = 1))) := by
  induction xs with
  | nil => intro r0 a0 j; simp [rolesL]
  | cons s t ih =>
    intro r0 a0 j
    cases j with
    | zero =>
      simp [rolesL]
    | succ j =>
      simp only [rolesL, List.getElem?_cons_succ, ih (r0 ^^ a0) s.active j,
        List.take_succ_cons, List.countP_cons]
      cases hxj : t[j]? with
      | none => rfl
      | some x =>
        simp only [Option.map_some']
        congr 1
        have hro : (t.take j).countP (fun u => u.active) + (if s.active = true then 1 else 0)
            = (if s.active then 1 else 0) + (t.take j).countP (fun u => u.active) := by
          omega
        rw [hro, parity_cons, ← Bool.xor_assoc]

theorem beepRight_eq (xs : List Seg) : ∀ c : Seg, c.primary = !c.secondary →
    beepRight c xs = (rolesR c.secondary xs, xs.length) := by
  induction xs with
  | nil => intro c _; rfl
  | cons s t ih =>
    intro c hc
    have hstep : rightStep c s = (roleSet s (c.secondary ^^ s.active), 1) := by
      cases hcs : c.secondary <;> rw [hcs] at hc <;> cases hsa : s.active <;>
        simp [rightStep, hc, hcs, hsa, roleSet]
    have hwf : (roleSet s (c.secondary ^^ s.active)).primary
        = !(roleSet s (c.secondary ^^ s.active)).secondary := rfl
    have hih := ih (roleSet s (c.secondary ^^ s.active)) hwf
    simp only [beepRight, hstep, hih, rolesR]
    simp [roleSet, Nat.add_comm]

theorem beepLeft_eq (xs : List Seg) : ∀ c : Seg, c.primary = !c.secondary →
    beepLeft c xs = (rolesL c.secondary c.active xs, xs.length) := by
  induction xs with
  | nil => intro c _; rfl
  | cons s t ih =>
    intro c hc
    have hstep : leftStep c s = (roleSet s (c.secondary ^^ c.active), 1) := by
      cases hcs : c.secondary <;> rw [hcs] at hc <;> cases hca : c.active <;>
        simp [leftStep, hc, hcs, hca, roleSet]
    have hwf : (roleSet s (c.secondary ^^ c.active)).primary
        = !(roleSet s (c.secondary ^^ c.active)).secondary := rfl
    have hih := ih (roleSet s (c.secondary ^^ c.active)) hwf
    simp only [beepLeft, hstep, hih, rolesL]
    simp [roleSet, Nat.add_comm]

/-! ### Counting and arithmetic lemmas -/

theorem modZeroIffDvd (n m : Nat) : n % m = 0 ↔ m ∣ n :=
  Nat.dvd_iff_mod_eq_zero.symm

theorem countP_eq_range (p : Seg → Bool) :
    ∀ (L : List Seg) (f : Nat → Bool),
      (∀ j, j < L.length → p (L.getD j default) = f j) →
      L.countP p = (List.range L.length).countP f := by
  intro L
  induction L with
  | nil => intro f _; rfl
  | cons a t ih =>
    intro f h
    have h0 : p a = f 0 := h 0 (Nat.succ_pos _)
    have ht : ∀ j, j < t.length → p (t.getD j default) = f (j + 1) := by
      intro j hj
      have := h (j + 1) (by simp only [List.length_cons]; omega)
      simpa [List.getD] using this
    rw [List.countP_cons, ih (fun j => f (j + 1)) ht, List.length_cons,
      List.range_succ_eq_map, List.countP_cons, List.countP_map]
    have hc : (List.range t.length).countP (f ∘ Nat.succ)
        = (List.range t.length).countP (fun j => f (j + 1)) := by
      exact List.countP_congr (fun x _ => by simp [Nat.succ_eq_add_one])
    rw [hc, h0]
    try omega

theorem countP_range_multiples (v : Nat) (hv : 0 < v) :
    ∀ m, (List.range m).countP (fun j => decide ((j + 1) % v = 0)) = m / v := by
  intro m
  induction m with
  | zero => simp
  | succ m ih =>
    by_cases hd : v ∣ (m + 1)
    · have h0 : (m + 1) % v = 0 := (modZeroIffDvd _ _).mpr hd
      simp [List.range_succ, List.countP_append, ih, Nat.succ_div, hd, h0]
    · have h0 : ¬((m + 1) % v = 0) := fun hc => hd ((modZeroIffDvd _ _).mp hc)
      simp [List.range_succ, List.countP_append, ih, Nat.succ_div, hd, h0]

theorem countP_range_countdown (v : Nat) (hv : 0 < v) :
    ∀ m, (List.range (m + 1)).countP (fun i => decide ((m - i) % v = 0)) = 1 + m / v := by
  intro m
  induction m with
  | zero => simp
  | succ m ih =>
    rw [List.range_succ_eq_map, List.countP_cons, List.countP_map]
    have hfun : (List.range (m + 1)).countP ((fun i => decide ((m + 1 - i) % v = 0)) ∘ Nat.succ)
        = (List.range (m + 1)).countP (fun i => decide ((m - i) % v = 0)) := by
      refine List.countP_congr (fun x _ => ?_)
      have : m + 1 - (x + 1) = m - x := by omega
      simp [Nat.succ_eq_add_one, this]
    rw [hfun, ih]
    by_cases hd : v ∣ (m + 1)
    · have h0 : (m + 1) % v = 0 := (modZeroIffDvd _ _).mpr hd
      simp [Nat.succ_div, hd, h0, Nat.sub_zero] <;> omega
    · have h0 : ¬((m + 1) % v = 0) := fun hc => hd ((modZeroIffDvd _ _).mp hc)
      simp [Nat.succ_div, hd, h0, Nat.sub_zero] <;> omega

theorem activeCount_formula (n ref v : Nat) (hv : 0 < v) (href : ref < n) :
    (List.range n).countP (fun i => decide (offsetDist ref i % v = 0))
      = 1 + ref / v + (n - 1 - ref) / v := by
  have hsplit : n = (ref + 1) + (n - ref - 1) := by omega
  conv_lhs => rw [hsplit]
  rw [List.range_add, List.countP_append, List.countP_map]
  have h1 : (List.range (ref + 1)).countP (fun i => decide (offsetDist ref i % v = 0))
      = (List.range (ref + 1)).countP (fun i => decide ((ref - i) % v = 0)) := by
    refine List.countP_congr (fun x hx => ?_)
    have hxlt : x < ref + 1 := List.mem_range.mp hx
    have : offsetDist ref x = ref - x := by
      unfold offsetDist
      omega
    simp [this]
  have h2 : (List.range (n - ref - 1)).countP
        ((fun i => decide (offsetDist ref i % v = 0)) ∘ (ref + 1 + ·))
      = (List.range (n - ref - 1)).countP (fun j => decide ((j + 1) % v = 0)) := by
    refine List.countP_congr (fun x _ => ?_)
    have : offsetDist ref (ref + 1 + x) = x + 1 := by
      unfold offsetDist
      omega
    simp [this]
  rw [h1, h2, countP_range_countdown v hv, countP_range_multiples v hv]
  have : n - ref - 1 = n - 1 - ref := by omega
  rw [this]

theorem activeCount_one_iff (n ref v : Nat) (hv : 0 < v) (href : ref < n) :
    ((List.range n).countP (fun i => decide (offsetDist ref i % v = 0)) = 1)
      ↔ max ref (n - 1 - ref) < v := by
  rw [activeCount_formula n ref v hv href, Nat.max_lt]
  have h1 : ref / v = 0 ↔ ref < v := Nat.div_eq_zero_iff hv
  have h2 : (n - 1 - ref) / v = 0 ↔ n - 1 - ref < v := Nat.div_eq_zero_iff hv
  constructor
  · intro h
    have e12 : ref / v = 0 ∧ (n - 1 - ref) / v = 0 := by
      generalize hA : ref / v = A at h
      generalize hB : (n - 1 - ref) / v = B at h
      omega
    exact ⟨h1.mp e12.1, h2.mp e12.2⟩
  · intro h
    have e1 : ref / v = 0 := h1.mpr h.1
    have e2 : (n - 1 - ref) / v = 0 := h2.mpr h.2
    rw [e1, e2]

theorem step_arith_right (e v : Nat) (hv : 0 < v) :
    (decide (e % v = 0) && !decide (e / v % 2 = 1)) = decide (e % (v * 2) = 0) := by
  have h2v : 0 < v * 2 := by omega
  by_cases h1 : e % v = 0
  · have hdvd : v ∣ e := (modZeroIffDvd _ _).mp h1
    have hiff : 2 ∣ e / v ↔ v * 2 ∣ e := Nat.dvd_div_iff_mul_dvd hdvd
    by_cases h2 : e / v % 2 = 1
    · have hnd : ¬(2 ∣ e / v) := by omega
      have hnd2 : ¬(v * 2 ∣ e) := fun hc => hnd (hiff.mpr hc)
      have hne : ¬(e % (v * 2) = 0) := fun hc => hnd2 ((modZeroIffDvd _ _).mp hc)
      simp [h1, h2, hne]
    · have hd2 : 2 ∣ e / v := by omega
      have heq : e % (v * 2) = 0 := (modZeroIffDvd _ _).mpr (hiff.mp hd2)
      simp [h1, h2, heq]
  · have hne : ¬(e % (v * 2) = 0) := by
      intro hc
      have hd := (modZeroIffDvd _ _).mp hc
      have : v ∣ e := dvd_trans ⟨2, rfl⟩ hd
      exact h1 ((modZeroIffDvd _ _).mpr this)
    simp [h1, hne]

theorem step_arith_left (e v : Nat) (hv : 0 < v) (he : 1 ≤ e) :
    (decide (e % v = 0) && decide ((e - 1) / v % 2 = 1)) = decide (e % (v * 2) = 0) := by
  have h2v : 0 < v * 2 := by omega
  by_cases h1 : e % v = 0
  · obtain ⟨m, hm⟩ := (modZeroIffDvd _ _).mp h1
    have hm1 : 1 ≤ m := by
      cases m with
      | zero => simp at hm; omega
      | succ m => omega
    have hdiv : (e - 1) / v = m - 1 := by
      have hrw : e - 1 = (v - 1) + v * (m - 1) := by
        cases m with
        | zero => omega
        | succ m' =>
          rw [hm, Nat.mul_succ]
          have : m' + 1 - 1 = m' := by omega
          rw [this]
          omega
      rw [hrw, Nat.add_mul_div_left _ _ hv, Nat.div_eq_of_lt (by omega)]
      omega
    have hmod2 : ((e - 1) / v % 2 = 1) ↔ (e % (v * 2) = 0) := by
      rw [hdiv]
      constructor
      · intro hodd
        have h2m : 2 ∣ m := by omega
        obtain ⟨mm, hmm⟩ := h2m
        refine (modZeroIffDvd _ _).mpr ⟨mm, ?_⟩
        rw [hm, hmm]
        ring
      · intro hz
        obtain ⟨mm, hmm⟩ := (modZeroIffDvd _ _).mp hz
        have hveq : v * m = v * (2 * mm) := by
          rw [← hm, hmm]
          ring
        have hmeq : m = 2 * mm := Nat.eq_of_mul_eq_mul_left hv hveq
        omega
    by_cases h2 : (e - 1) / v % 2 = 1
    · simp [h1, h2, hmod2.mp h2]
    · have hne : ¬(e % (v * 2) = 0) := fun hc => h2 (hmod2.mpr hc)
      simp [h1, h2, hne]
  · have hne : ¬(e % (v * 2) = 0) := by
      intro hc
      have hd := (modZeroIffDvd _ _).mp hc
      have : v ∣ e := dvd_trans ⟨2, rfl⟩ hd
      exact h1 ((modZeroIffDvd _ _).mpr this)
    simp [h1, hne]

/-! ### Pointwise characterization of one round under the invariant -/

theorem listGetD_eq {α : Type} (l : List α) (i : Nat) (d : α) :
    l.getD i d = (l[i]?).getD d := by
  simp [List.getD]

theorem getElem?_of_lt {α : Type} (l : List α) (i : Nat) (h : i < l.length) (d : α) :
    l[i]? = some (l.getD i d) := by
  simp [List.getD, List.getElem?_eq_getElem h]

theorem rolesR_length (r0 : Bool) (xs : List Seg) : (rolesR r0 xs).length = xs.length := by
  induction xs generalizing r0 with
  | nil => rfl
  | cons s t ih => simp [rolesR, ih]

theorem rolesL_length (r0 a0 : Bool) (xs : List Seg) : (rolesL r0 a0 xs).length = xs.length := by
  induction xs generalizing r0 a0 with
  | nil => rfl
  | cons s t ih => simp [rolesL, ih]

theorem offsetDist_le (ref i : Nat) (h : i ≤ ref) : offsetDist ref i = ref - i := by
  unfold offsetDist
  rw [Nat.sub_eq_zero_of_le h, Nat.max_zero]

theorem offsetDist_ge (ref i : Nat) (h : ref ≤ i) : offsetDist ref i = i - ref := by
  unfold offsetDist
  rw [Nat.sub_eq_zero_of_le h, Nat.zero_max]

theorem sweepPhase_inv (n ref k : Nat) (href : ref < n) (S : List Seg)
    (hlen : S.length = n)
    (hprim : ∀ i, i < n → (S.getD i default).primary = decide (i = ref))
    (hsec : ∀ i, i < n → (S.getD i default).secondary = false)
    (hact : ∀ i, i < n → (S.getD i default).active = decide (offsetDist ref i % 2 ^ k = 0)) :
    (sweepPhase ref S).2 = n - 1 ∧
    ∀ i, i < n → (sweepPhase ref S).1[i]? =
      some (roleSet (S.getD i default) (roundRole ref k i)) := by
  have hv : 0 < 2 ^ k := Nat.pos_pow_of_pos k (by omega)
  have hrp : (S.getD ref default).primary = true := by simpa using hprim ref href
  have hrs : (S.getD ref default).secondary = false := hsec ref href
  have hra : (S.getD ref default).active = true := by
    have h0 : offsetDist ref ref = 0 := by rw [offsetDist_le ref ref le_rfl]; omega
    simpa [h0] using hact ref href
  have hwfref : (S.getD ref default).primary = !(S.getD ref default).secondary := by
    rw [hrp, hrs]
    rfl
  have hxsRlen : (S.drop (ref + 1)).length = n - ref - 1 := by
    rw [List.length_drop, hlen]
    omega
  have hBR := beepRight_eq (S.drop (ref + 1)) (S.getD ref default) hwfref
  rw [hrs, hxsRlen] at hBR
  have htklen : (S.take (ref + 1)).length = ref + 1 := by
    simp [hlen]
    omega
  set S1 := S.take (ref + 1) ++ rolesR false (S.drop (ref + 1)) with hS1def
  have hS1len : S1.length = n := by
    rw [hS1def, List.length_append, htklen, rolesR_length, hxsRlen]
    omega
  have hS1le : ∀ i, i < ref + 1 → S1[i]? = S[i]? := by
    intro i hi
    rw [hS1def, List.getElem?_append, if_pos (by rw [htklen]; exact hi),
      List.getElem?_take, if_pos hi]
  have hS1ref : S1.getD ref default = S.getD ref default := by
    rw [listGetD_eq, hS1le ref (by omega), ← listGetD_eq]
  have hS1gt : ∀ i, ref < i → S1[i]? = (rolesR false (S.drop (ref + 1)))[i - (ref + 1)]? := by
    intro i hi
    rw [hS1def, List.getElem?_append, if_neg (by rw [htklen]; omega), htklen]
  have hTlen : (S1.take ref).length = ref := by
    simp [hS1len]
    omega
  have hxsLlen : ((S1.take ref).reverse).length = ref := by
    rw [List.length_reverse, hTlen]
  have hxsLget : ∀ j, j < ref → ((S1.take ref).reverse)[j]? = S[ref - 1 - j]? := by
    intro j hj
    rw [List.getElem?_reverse (by rw [hTlen]; exact hj), hTlen,
      List.getElem?_take, if_pos (by omega)]
    exact hS1le (ref - 1 - j) (by omega)
  have hBL := beepLeft_eq ((S1.take ref).reverse) (S.getD ref default) hwfref
  rw [hrs, hra, hxsLlen] at hBL
  have hsweep : sweepPhase ref S
      = ((rolesL false true ((S1.take ref).reverse)).reverse ++ S1.drop ref,
         (n - ref - 1) + ref) := by
    simp only [sweepPhase]
    rw [hBR]
    dsimp only
    rw [← hS1def, hS1ref, hBL]
  have hrevlen : (rolesL false true ((S1.take ref).reverse)).length = ref := by
    rw [rolesL_length, hxsLlen]
  constructor
  · rw [hsweep]
    dsimp only
    omega
  · intro i hi
    rw [hsweep]
    dsimp only
    rcases Nat.lt_trichotomy i ref with hir | hir | hir
    · -- left side: i < ref
      rw [List.getElem?_append, if_pos (by rw [List.length_reverse, hrevlen]; exact hir)]
      rw [List.getElem?_reverse (by rw [hrevlen]; exact hir), hrevlen]
      rw [rolesL_getElem]
      rw [hxsLget (ref - 1 - i) (by omega)]
      have hidx : ref - 1 - (ref - 1 - i) = i := by omega
      rw [hidx, getElem?_of_lt S i (by omega) default]
      rw [Option.map_some']
      congr 1
      have hLlen : (((S1.take ref).reverse).take (ref - 1 - i)).length = ref - 1 - i := by
        rw [List.length_take, hxsLlen]
        omega
      have hcnt : (((S1.take ref).reverse).take (ref - 1 - i)).countP (fun u => u.active)
          = (ref - 1 - i) / 2 ^ k := by
        rw [countP_eq_range (fun u => u.active) _ (fun j => decide ((j + 1) % 2 ^ k = 0)) ?_,
          hLlen, countP_range_multiples _ hv]
        intro j hj
        rw [hLlen] at hj
        have hjr : j < ref := by omega
        have hgd : (((S1.take ref).reverse).take (ref - 1 - i)).getD j default
            = S.getD (ref - 1 - j) default := by
          rw [listGetD_eq, List.getElem?_take, if_pos hj, hxsLget j hjr, ← listGetD_eq]
        rw [hgd]
        show (S.getD (ref - 1 - j) default).active = decide ((j + 1) % 2 ^ k = 0)
        rw [hact (ref - 1 - j) (by omega)]
        have hod : offsetDist ref (ref - 1 - j) = j + 1 := by
          rw [offsetDist_le ref (ref - 1 - j) (by omega)]
          omega
        rw [hod]
      rw [hcnt]
      have hsub : ref - 1 - i = ref - i - 1 := by omega
      rw [hsub]
      simp [roundRole, hir]
    · -- the reference position is untouched by both sweeps
      subst hir
      rw [List.getElem?_append, if_neg (by rw [List.length_reverse, hrevlen]; omega),
        List.length_reverse, hrevlen, Nat.sub_self, List.getElem?_drop, Nat.add_zero,
        hS1le i (by omega), getElem?_of_lt S i (by rw [hlen]; exact hi) default]
      have hrr : roundRole i k i = false := by
        simp [roundRole]
      rw [hrr, roleSet_eq_self _ _ (by rw [hrp]; rfl) hrs]
    · -- right side: ref < i
      rw [List.getElem?_append, if_neg (by rw [List.length_reverse, hrevlen]; omega),
        List.length_reverse, hrevlen, List.getElem?_drop]
      have hadd : ref + (i - ref) = i := by omega
      rw [hadd, hS1gt i hir, rolesR_getElem]
      have hdropget : (S.drop (ref + 1))[i - (ref + 1)]? = S[i]? := by
        rw [List.getElem?_drop]
        congr 1
        omega
      rw [hdropget, getElem?_of_lt S i (by rw [hlen]; exact hi) default, Option.map_some']
      congr 1
      have hLlen : ((S.drop (ref + 1)).take (i - (ref + 1) + 1)).length = i - ref := by
        rw [List.length_take, hxsRlen]
        omega
      have hcnt : ((S.drop (ref + 1)).take (i - (ref + 1) + 1)).countP (fun u => u.active)
          = (i - ref) / 2 ^ k := by
        rw [countP_eq_range (fun u => u.active) _ (fun j => decide ((j + 1) % 2 ^ k = 0)) ?_,
          hLlen, countP_range_multiples _ hv]
        intro j hj
        rw [hLlen] at hj
        have hgd : ((S.drop (ref + 1)).take (i - (ref + 1) + 1)).getD j default
            = S.getD (ref + 1 + j) default := by
          rw [listGetD_eq, List.getElem?_take, if_pos (by omega), List.getElem?_drop,
            ← listGetD_eq]
        rw [hgd]
        show (S.getD (ref + 1 + j) default).active = decide ((j + 1) % 2 ^ k = 0)
        rw [hact (ref + 1 + j) (by omega)]
        have hod : offsetDist ref (ref + 1 + j) = j + 1 := by
          rw [offsetDist_ge ref (ref + 1 + j) (by omega)]
          omega
        rw [hod]
      rw [hcnt]
      simp [roundRole, hir, Nat.not_lt.mpr (Nat.le_of_lt hir)]

theorem dr_ab_roleSet (s : Seg) (b : Bool) :
    deactivateReset (addBits (roleSet s b)) = ⟨false, false, s.active && !b, b :: s.bits⟩ := by
  cases b <;> simp [addBits, roleSet, deactivateReset]

theorem pascRound_inv (n ref k : Nat) (href : ref < n) (S : List Seg) (h : SInv n ref k S) :
    SInv n ref (k + 1) (pascStep ref S) ∧ (pascRound ref S).2 = n - 1 := by
  obtain ⟨hlen, hprim, hsec, hact⟩ := h
  obtain ⟨hsteps, hget⟩ := sweepPhase_inv n ref k href S hlen hprim hsec hact
  have hv : 0 < 2 ^ k := Nat.pos_pow_of_pos k (by omega)
  have hswlen : (sweepPhase ref S).1.length = n := by rw [sweepPhase_length, hlen]
  have hS4len : ((((sweepPhase ref S).1.map addBits).map deactivateReset)).length = n := by
    simp [hswlen]
  have hS4 : ∀ i, i < n → (((sweepPhase ref S).1.map addBits).map deactivateReset)[i]?
      = some ⟨false, false, (S.getD i default).active && !(roundRole ref k i),
              roundRole ref k i :: (S.getD i default).bits⟩ := by
    intro i hi
    rw [List.getElem?_map, List.getElem?_map, hget i hi]
    simp only [Option.map_some']
    rw [dr_ab_roleSet]
  have hpsdef : pascStep ref S
      = (((sweepPhase ref S).1.map addBits).map deactivateReset).set ref
          {(((sweepPhase ref S).1.map addBits).map deactivateReset).getD ref default with
            primary := true} := by
    simp only [pascStep, pascRound]
  have hraT : (S.getD ref default).active = true := by
    have h0 : offsetDist ref ref = 0 := by rw [offsetDist_le ref ref le_rfl]; omega
    simpa [h0] using hact ref href
  have hrr : roundRole ref k ref = false := by simp [roundRole]
  have hgetref : (((sweepPhase ref S).1.map addBits).map deactivateReset).getD ref default
      = ⟨false, false, (S.getD ref default).active && !(roundRole ref k ref),
         roundRole ref k ref :: (S.getD ref default).bits⟩ := by
    rw [listGetD_eq, hS4 ref href]
    rfl
  have hfin : ∀ i, i < n → (pascStep ref S).getD i default =
      if i = ref then ⟨true, false, true, false :: (S.getD ref default).bits⟩
      else ⟨false, false, (S.getD i default).active && !(roundRole ref k i),
            roundRole ref k i :: (S.getD i default).bits⟩ := by
    intro i hi
    rw [hpsdef, listGetD_eq]
    by_cases hieq : i = ref
    · subst hieq
      rw [List.getElem?_set_eq_of_lt _ (by rw [hS4len]; exact hi)]
      rw [hgetref, hrr, hraT]
      simp
    · rw [List.getElem?_set_ne (Ne.symm hieq), hS4 i hi]
      simp [hieq]
  refine ⟨⟨?_, ?_, ?_, ?_⟩, by simp only [pascRound]; exact hsteps⟩
  · rw [pascStep_length, hlen]
  · intro i hi
    rw [hfin i hi]
    by_cases hieq : i = ref
    · simp [hieq]
    · simp [hieq]
  · intro i hi
    rw [hfin i hi]
    by_cases hieq : i = ref
    · simp [hieq]
    · simp [hieq]
  · intro i hi
    rw [hfin i hi]
    by_cases hieq : i = ref
    · subst hieq
      have h0 : offsetDist i i = 0 := by rw [offsetDist_le i i le_rfl]; omega
      simp [h0]
    · rw [if_neg hieq]
      show ((S.getD i default).active && !(roundRole ref k i))
          = decide (offsetDist ref i % 2 ^ (k + 1) = 0)
      rw [hact i hi]
      rcases Nat.lt_trichotomy i ref with hir | hir | hir
      · have hod : offsetDist ref i = ref - i := offsetDist_le ref i (by omega)
        have hrr2 : roundRole ref k i = !decide ((ref - i - 1) / 2 ^ k % 2 = 1) := by
          simp [roundRole, hir]
        rw [hod, hrr2, Bool.not_not, pow_succ]
        exact step_arith_left (ref - i) (2 ^ k) hv (by omega)
      · exact absurd hir hieq
      · have hod : offsetDist ref i = i - ref := offsetDist_ge ref i (by omega)
        have hrr2 : roundRole ref k i = decide ((i - ref) / 2 ^ k % 2 = 1) := by
          simp [roundRole, Nat.not_lt.mpr (Nat.le_of_lt hir)]
        rw [hod, hrr2, pow_succ]
        exact step_arith_right (i - ref) (2 ^ k) hv

/-! ### The loop: termination, round count and survivor -/

theorem initState_inv (n ref : Nat) (href : ref < n) : SInv n ref 0 (initState n ref) := by
  have hget : ∀ i, i < n → (initState n ref).getD i default
      = if i = ref then (⟨true, false, true, []⟩ : Seg) else ⟨false, false, true, []⟩ := by
    intro i hi
    rw [initState, initSegs, listGetD_eq]
    by_cases hieq : i = ref
    · subst hieq
      rw [List.getElem?_set_eq_of_lt _ (by simpa using hi)]
      simp
    · rw [List.getElem?_set_ne (Ne.symm hieq)]
      simp [List.getElem?_replicate, hi, hieq]
  refine ⟨by simp [initState, initSegs], ?_, ?_, ?_⟩
  · intro i hi
    rw [hget i hi]
    by_cases hieq : i = ref <;> simp [hieq]
  · intro i hi
    rw [hget i hi]
    by_cases hieq : i = ref <;> simp [hieq]
  · intro i hi
    rw [hget i hi]
    by_cases hieq : i = ref <;> simp [hieq, Nat.mod_one]

theorem activeSum_inv (n ref k : Nat) (S : List Seg) (h : SInv n ref k S) :
    activeSum S = (List.range n).countP (fun i => decide (offsetDist ref i % 2 ^ k = 0)) := by
  obtain ⟨hlen, _, _, hact⟩ := h
  unfold activeSum
  rw [countP_eq_range (fun s => s.active) S (fun i => decide (offsetDist ref i % 2 ^ k = 0)) ?_,
    hlen]
  intro j hj
  show (S.getD j default).active = decide (offsetDist ref j % 2 ^ k = 0)
  exact hact j (by rw [hlen] at hj; exact hj)

theorem sendBeepAux_run (n ref : Nat) (href : ref < n) :
    ∀ (j : Nat) (S : List Seg) (iters steps : Nat),
      j ≤ Nat.clog 2 (max ref (n - 1 - ref) + 1) →
      SInv n ref (Nat.clog 2 (max ref (n - 1 - ref) + 1) - j) S →
      ∃ Sf stf, sendBeepAux ref j S iters steps = some (Sf, iters + j, stf)
        ∧ SInv n ref (Nat.clog 2 (max ref (n - 1 - ref) + 1)) Sf := by
  intro j
  induction j with
  | zero =>
    intro S iters steps hj hS
    rw [Nat.sub_zero] at hS
    have hpow : max ref (n - 1 - ref) + 1 ≤ 2 ^ Nat.clog 2 (max ref (n - 1 - ref) + 1) :=
      (Nat.le_pow_iff_clog_le (by omega)).mpr le_rfl
    have hone : activeSum S = 1 := by
      rw [activeSum_inv n ref _ S hS]
      exact (activeCount_one_iff n ref _ (Nat.pos_pow_of_pos _ (by omega)) href).mpr (by omega)
    refine ⟨S, steps, ?_, hS⟩
    simp [sendBeepAux, hone]
  | succ j ih =>
    intro S iters steps hj hS
    have hge : 2 ^ (Nat.clog 2 (max ref (n - 1 - ref) + 1) - (j + 1)) ≤ max ref (n - 1 - ref) := by
      by_contra hcon
      push_neg at hcon
      have := (Nat.le_pow_iff_clog_le (b := 2) (by omega)).mp
        (show max ref (n - 1 - ref) + 1
            ≤ 2 ^ (Nat.clog 2 (max ref (n - 1 - ref) + 1) - (j + 1)) by omega)
      omega
    have hv : 0 < 2 ^ (Nat.clog 2 (max ref (n - 1 - ref) + 1) - (j + 1)) :=
      Nat.pos_pow_of_pos _ (by omega)
    have hne : ¬(activeSum S = 1) := by
      rw [activeSum_inv n ref _ S hS]
      intro hc
      have := (activeCount_one_iff n ref _ hv href).mp hc
      omega
    obtain ⟨hS', _⟩ := pascRound_inv n ref _ href S hS
    have hksucc : Nat.clog 2 (max ref (n - 1 - ref) + 1) - (j + 1) + 1
        = Nat.clog 2 (max ref (n - 1 - ref) + 1) - j := by omega
    rw [hksucc] at hS'
    obtain ⟨Sf, stf, hrun, hSf⟩ :=
      ih (pascStep ref S) (iters + 1) (steps + (pascRound ref S).2) (by omega) hS'
    refine ⟨Sf, stf, ?_, hSf⟩
    simp only [sendBeepAux, if_neg hne]
    have harith : iters + 1 + j = iters + (j + 1) := by omega
    rw [harith] at hrun
    exact hrun

theorem boundary_inv (n ref : Nat) (href : ref < n) :
    ∀ k, SInv n ref k (boundary n ref k) := by
  intro k
  induction k with
  | zero => exact initState_inv n ref href
  | succ k ih => exact (pascRound_inv n ref k href (boundary n ref k) ih).1

theorem sweepPhase_ref_untouched (ref : Nat) (S : List Seg) :
    (sweepPhase ref S).1[ref]? = S[ref]? := by
  have hbr : (beepRight (S.getD ref default) (S.drop (ref + 1))).1.length
      = S.length - (ref + 1) := by
    have := congrArg List.length (map_active_beepRight (S.drop (ref + 1)) (S.getD ref default))
    simpa using this
  have hS1len : (S.take (ref + 1)
      ++ (beepRight (S.getD ref default) (S.drop (ref + 1))).1).length = S.length := by
    rw [List.length_append, hbr, List.length_take]
    omega
  by_cases hlen : ref < S.length
  · have htk : (S.take (ref + 1)).length = ref + 1 := by
      simp
      omega
    have hbl : (beepLeft ((S.take (ref + 1)
        ++ (beepRight (S.getD ref default) (S.drop (ref + 1))).1).getD ref default)
        (((S.take (ref + 1)
          ++ (beepRight (S.getD ref default) (S.drop (ref + 1))).1).take ref).reverse)).1.length
        = ref := by
      have := congrArg List.length (map_active_beepLeft (((S.take (ref + 1)
        ++ (beepRight (S.getD ref default) (S.drop (ref + 1))).1).take ref).reverse)
        ((S.take (ref + 1)
          ++ (beepRight (S.getD ref default) (S.drop (ref + 1))).1).getD ref default))
      simp only [List.length_map, List.length_reverse, List.length_take] at this
      rw [this, hS1len]
      omega
    simp only [sweepPhase]
    rw [List.getElem?_append, if_neg (by rw [List.length_reverse, hbl]; omega),
      List.length_reverse, hbl, Nat.sub_self, List.getElem?_drop, Nat.add_zero,
      List.getElem?_append, if_pos (by rw [htk]; omega), List.getElem?_take, if_pos (by omega)]
    simp
  · have h1 : S[ref]? = none := List.getElem?_eq_none (by omega)
    have h2 : (sweepPhase ref S).1[ref]? = none :=
      List.getElem?_eq_none (by rw [sweepPhase_length]; omega)
    rw [h1, h2]

/-- Claim C3: for every chain length `n ≥ 1` and reference `0 ≤ ref ≤ n-1` the
round loop of the engine terminates; the number of executed rounds equals
`⌈log2(max(ref, n-1-ref) + 1)⌉` (hence is bounded by it), and an `n = 1`
chain needs zero rounds. -/
theorem claim_C3_termination_bound (n ref : Nat) (h1 : 1 ≤ n) (h2 : ref ≤ n - 1) :
    ∃ Sf steps,
      sendBeep n ref (Nat.clog 2 (max ref (n - 1 - ref) + 1))
        = some (Sf, Nat.clog 2 (max ref (n - 1 - ref) + 1), steps)
      ∧ (n = 1 → Nat.clog 2 (max ref (n - 1 - ref) + 1) = 0) := by
  have href : ref < n := by omega
  obtain ⟨Sf, stf, hrun, _⟩ := sendBeepAux_run n ref href
    (Nat.clog 2 (max ref (n - 1 - ref) + 1)) (initState n ref) 0 0 le_rfl
    (by rw [Nat.sub_self]; exact initState_inv n ref href)
  refine ⟨Sf, stf, ?_, ?_⟩
  · unfold sendBeep
    rw [hrun]
    congr 1
    rw [Prod.mk.injEq]
    constructor
    · rfl
    · rw [Prod.mk.injEq]
      exact ⟨by omega, rfl⟩
  · intro hn1
    have hr0 : ref = 0 := by omega
    subst hn1 hr0
    simp [Nat.clog_one_right]

/-- Witness for claim C3 at the concrete chain `n = 4`, `ref = 3`. -/
theorem claim_C3_witness :
    1 ≤ 4 ∧ 3 ≤ 4 - 1 ∧
    (∃ Sf steps,
      sendBeep 4 3 (Nat.clog 2 (max 3 (4 - 1 - 3) + 1))
        = some (Sf, Nat.clog 2 (max 3 (4 - 1 - 3) + 1), steps)
      ∧ (4 = 1 → Nat.clog 2 (max 3 (4 - 1 - 3) + 1) = 0)) :=
  ⟨by decide, by decide, claim_C3_termination_bound 4 3 (by decide) (by decide)⟩

/-- Claim C4: the reference segment is never touched by the sweeps, is active,
primary and never secondary at every round boundary, and the unique surviving
active segment of a terminated run is exactly the reference segment. -/
theorem claim_C4_reference_survives (n ref : Nat) (h1 : 1 ≤ n) (h2 : ref ≤ n - 1) :
    (∀ S : List Seg, (sweepPhase ref S).1[ref]? = S[ref]?)
    ∧ (∀ k, ((boundary n ref k).getD ref default).active = true
        ∧ ((boundary n ref k).getD ref default).secondary = false
        ∧ ((boundary n ref k).getD ref default).primary = true)
    ∧ (∃ Sf steps, sendBeep n ref (Nat.clog 2 (max ref (n - 1 - ref) + 1))
          = some (Sf, Nat.clog 2 (max ref (n - 1 - ref) + 1), steps)
        ∧ ∀ i, i < n → (Sf.getD i default).active = decide (i = ref)) := by
  have href : ref < n := by omega
  have hod0 : offsetDist ref ref = 0 := by
    rw [offsetDist_le ref ref le_rfl]
    omega
  refine ⟨sweepPhase_ref_untouched ref, ?_, ?_⟩
  · intro k
    obtain ⟨hlen, hprim, hsec, hact⟩ := boundary_inv n ref href k
    refine ⟨?_, hsec ref href, ?_⟩
    · rw [hact ref href, hod0]
      simp
    · rw [hprim ref href]
      simp
  · obtain ⟨Sf, stf, hrun, hSf⟩ := sendBeepAux_run n ref href
      (Nat.clog 2 (max ref (n - 1 - ref) + 1)) (initState n ref) 0 0 le_rfl
      (by rw [Nat.sub_self]; exact initState_inv n ref href)
    have hpow : max ref (n - 1 - ref) + 1
        ≤ 2 ^ Nat.clog 2 (max ref (n - 1 - ref) + 1) :=
      (Nat.le_pow_iff_clog_le (by omega)).mpr le_rfl
    refine ⟨Sf, stf, ?_, ?_⟩
    · unfold sendBeep
      rw [hrun]
      congr 1
      rw [Prod.mk.injEq]
      exact ⟨rfl, by rw [Prod.mk.injEq]; exact ⟨by omega, rfl⟩⟩
    · intro i hi
      rw [hSf.act i hi]
      by_cases hieq : i = ref
      · subst hieq
        rw [hod0]
        simp
      · have hbound : 1 ≤ offsetDist ref i ∧ offsetDist ref i ≤ max ref (n - 1 - ref) := by
          rcases Nat.lt_trichotomy i ref with hir | hir | hir
          · rw [offsetDist_le ref i (by omega)]
            constructor
            · omega
            · calc ref - i ≤ ref := by omega
                _ ≤ max ref (n - 1 - ref) := le_max_left _ _
          · exact absurd hir hieq
          · rw [offsetDist_ge ref i (by omega)]
            constructor
            · omega
            · calc i - ref ≤ n - 1 - ref := by omega
                _ ≤ max ref (n - 1 - ref) := le_max_right _ _
        have hlt : offsetDist ref i < 2 ^ Nat.clog 2 (max ref (n - 1 - ref) + 1) := by omega
        rw [Nat.mod_eq_of_lt hlt]
        have hne0 : ¬(offsetDist ref i = 0) := by omega
        simp [hieq, hne0]

/-- Witness for claim C4 at the concrete chain `n = 3`, `ref = 1`. -/
theorem claim_C4_witness :
    1 ≤ 3 ∧ 1 ≤ 3 - 1 ∧
    ((∀ S : List Seg, (sweepPhase 1 S).1[1]? = S[1]?)
    ∧ (∀ k, ((boundary 3 1 k).getD 1 default).active = true
        ∧ ((boundary 3 1 k).getD 1 default).secondary = false
        ∧ ((boundary 3 1 k).getD 1 default).primary = true)
    ∧ (∃ Sf steps, sendBeep 3 1 (Nat.clog 2 (max 1 (3 - 1 - 1) + 1))
          = some (Sf, Nat.clog 2 (max 1 (3 - 1 - 1) + 1), steps)
        ∧ ∀ i, i < 3 → (Sf.getD i default).active = decide (i = 1))) :=
  ⟨by decide, by decide, claim_C4_reference_survives 3 1 (by decide) (by decide)⟩

/-! ### Monotone elimination -/

theorem pascStep_active_mono (ref : Nat) (S : List Seg) (i : Nat)
    (h : ((pascStep ref S)[i]?).map Seg.active = some true) :
    (S[i]?).map Seg.active = some true := by
  by_cases hil : i < S.length
  · have hswlen : (sweepPhase ref S).1.length = S.length := sweepPhase_length ref S
    obtain ⟨x, hx⟩ : ∃ x, (sweepPhase ref S).1[i]? = some x :=
      ⟨(sweepPhase ref S).1.getD i default,
        getElem?_of_lt _ i (by rw [hswlen]; exact hil) default⟩
    have hsw : ((sweepPhase ref S).1[i]?).map Seg.active = (S[i]?).map Seg.active := by
      have hmap := map_active_sweepPhase ref S
      rw [← List.getElem?_map, hmap, List.getElem?_map]
    have hS4 : (((sweepPhase ref S).1.map addBits).map deactivateReset)[i]?
        = some (deactivateReset (addBits x)) := by
      rw [List.getElem?_map, List.getElem?_map, hx]
      rfl
    have hS4len : (((sweepPhase ref S).1.map addBits).map deactivateReset).length = S.length := by
      simp [hswlen]
    have hxact : x.active = true → (S[i]?).map Seg.active = some true := by
      intro hxa
      rw [← hsw, hx]
      simp [hxa]
    have hps : pascStep ref S
        = (((sweepPhase ref S).1.map addBits).map deactivateReset).set ref
            {(((sweepPhase ref S).1.map addBits).map deactivateReset).getD ref default with
              primary := true} := by
      simp only [pascStep, pascRound]
    rw [hps] at h
    by_cases hieq : i = ref
    · subst hieq
      rw [List.getElem?_set_eq_of_lt _ (by rw [hS4len]; exact hil)] at h
      rw [listGetD_eq, hS4] at h
      simp only [Option.getD_some, Option.map_some'] at h
      have : (deactivateReset (addBits x)).active = true := by simpa using h
      have hxa : x.active = true := by
        have hab : (addBits x).active = x.active := by
          unfold addBits
          repeat' split
          all_goals rfl
        unfold deactivateReset at this
        simp only [hab] at this
        exact (Bool.and_eq_true_iff.mp this).1
      exact hxact hxa
    · rw [List.getElem?_set_ne (Ne.symm hieq), hS4] at h
      simp only [Option.map_some'] at h
      have : (deactivateReset (addBits x)).active = true := by simpa using h
      have hxa : x.active = true := by
        have hab : (addBits x).active = x.active := by
          unfold addBits
          repeat' split
          all_goals rfl
        unfold deactivateReset at this
        simp only [hab] at this
        exact (Bool.and_eq_true_iff.mp this).1
      exact hxact hxa
  · have : (pascStep ref S)[i]? = none :=
      List.getElem?_eq_none (by rw [pascStep_length]; omega)
    rw [this] at h
    simp at h

theorem countActive_le_of_pointwise :
    ∀ (L M : List Seg),
      (∀ i : Nat, ((L[i]?).map Seg.active = some true) → ((M[i]?).map Seg.active = some true)) →
      L.length = M.length → activeSum L ≤ activeSum M := by
  intro L
  induction L with
  | nil => intro M _ _; simp [activeSum]
  | cons a t ih =>
    intro M hpt hlen
    cases M with
    | nil => simp at hlen
    | cons b u =>
      unfold activeSum
      rw [List.countP_cons, List.countP_cons]
      have ht : t.countP (fun s => s.active) ≤ u.countP (fun s => s.active) := by
        have := ih u (fun i h => by
          have := hpt (i + 1) (by simpa using h)
          simpa using this) (by simpa using hlen)
        simpa [activeSum] using this
      by_cases ha : a.active
      · have hb : b.active = true := by
          have := hpt 0 (by simp [ha])
          simpa using this
        simp only [ha, hb]
        omega
      · have h0 : (if (fun s : Seg => s.active) a = true then 1 else 0) = 0 := by
          simp [ha]
        rw [h0]
        omega

/-- Claim C9: across the rounds of a run, the active-segment count at the
termination check never increases, and a segment that is inactive at one
round boundary is still inactive at every later boundary (equivalently, an
active segment after a round was active before it). -/
theorem claim_C9_monotone_elimination (n ref k i : Nat) :
    activeSum (boundary n ref (k + 1)) ≤ activeSum (boundary n ref k)
    ∧ (((boundary n ref (k + 1))[i]?).map Seg.active = some true →
        ((boundary n ref k)[i]?).map Seg.active = some true) := by
  constructor
  · refine countActive_le_of_pointwise (boundary n ref (k + 1)) (boundary n ref k) ?_ ?_
    · intro j h
      exact pascStep_active_mono ref (boundary n ref k) j h
    · rw [boundary_length, boundary_length]
  · intro h
    exact pascStep_active_mono ref (boundary n ref k) i h

/-- Witness for claim C9 on the chain `n = 2`, `ref = 0` after the first
round (segment 0 is still active entering round 2). -/
theorem claim_C9_witness :
    (((boundary 2 0 1)[0]?).map Seg.active = some true)
    ∧ activeSum (boundary 2 0 1) ≤ activeSum (boundary 2 0 0)
    ∧ (((boundary 2 0 0)[0]?).map Seg.active = some true) :=
  ⟨by decide, (claim_C9_monotone_elimination 2 0 0 0).1,
    (claim_C9_monotone_elimination 2 0 0 0).2 (by decide)⟩

/-! ### Stripe decomposition: grouping machinery -/

theorem insertG_keys (gs : List (Int × List Item)) (key : Int) (it : Item) :
    (insertG gs key it).map Prod.fst =
      if key ∈ gs.map Prod.fst then gs.map Prod.fst else gs.map Prod.fst ++ [key] := by
  induction gs with
  | nil => simp [insertG]
  | cons kv rest ih =>
    obtain ⟨k, v⟩ := kv
    by_cases hk : k = key
    · subst hk
      simp [insertG]
    · simp only [insertG, if_neg hk, List.map_cons, ih]
      by_cases hmem : key ∈ rest.map Prod.fst
      · simp [hmem, hk, Ne.symm hk]
      · simp [hmem, hk, Ne.symm hk]

theorem assocGet_insertG (gs : List (Int × List Item)) (k : Int) (it : Item) (key : Int) :
    assocGet (insertG gs k it) key =
      if key = k then assocGet gs key ++ [it] else assocGet gs key := by
  induction gs with
  | nil =>
    by_cases hk : key = k
    · subst hk
      simp [insertG, assocGet]
    · simp [insertG, assocGet, hk, show ¬(k = key) from fun h => hk h.symm]
  | cons kv rest ih =>
    obtain ⟨k2, v⟩ := kv
    by_cases hk2 : k2 = k
    · subst hk2
      by_cases hkey : key = k2
      · subst hkey
        simp [insertG, assocGet]
      · simp [insertG, assocGet, hkey, show ¬(k2 = key) from fun h => hkey h.symm]
    · by_cases hkey : k2 = key
      · subst hkey
        simp [insertG, assocGet, hk2, show ¬(k2 = k) from hk2]
      · simp [insertG, assocGet, hk2, hkey, ih]

theorem assocGet_buildGroups_aux (keyf : Node → Int) (key : Int) :
    ∀ (nodes : List Node) (gs : List (Int × List Item)),
      assocGet (nodes.foldl (fun gs nd => insertG gs (keyf nd) (mkItem nd)) gs) key
        = assocGet gs key ++ (nodes.filter (fun nd => keyf nd = key)).map mkItem := by
  intro nodes
  induction nodes with
  | nil => intro gs; simp
  | cons nd rest ih =>
    intro gs
    rw [List.foldl_cons, ih, assocGet_insertG, List.filter_cons]
    by_cases hnd : keyf nd = key
    · rw [if_pos hnd.symm, if_pos (by simpa using hnd)]
      simp [List.append_assoc]
    · rw [if_neg (fun h => hnd h.symm), if_neg (by simpa using hnd)]

theorem assocGet_buildGroups (keyf : Node → Int) (nodes : List Node) (key : Int) :
    assocGet (buildGroups nodes keyf) key
      = (nodes.filter (fun nd => keyf nd = key)).map mkItem := by
  unfold buildGroups
  rw [assocGet_buildGroups_aux keyf key nodes []]
  rfl

theorem keys_buildGroups_aux (keyf : Node → Int) :
    ∀ (nodes : List Node) (gs : List (Int × List Item)),
      (nodes.foldl (fun gs nd => insertG gs (keyf nd) (mkItem nd)) gs).map Prod.fst
        = nodes.foldl (fun acc nd => if keyf nd ∈ acc then acc else acc ++ [keyf nd])
            (gs.map Prod.fst) := by
  intro nodes
  induction nodes with
  | nil => intro gs; rfl
  | cons nd rest ih =>
    intro gs
    rw [List.foldl_cons, List.foldl_cons, ih, insertG_keys]

theorem keys_buildGroups_raw (nodes : List Node) (alt : String) :
    (buildGroups nodes (fun nd => stripeId nd.q nd.r alt)).map Prod.fst
      = uniqueSids nodes alt := by
  unfold buildGroups uniqueSids
  rw [keys_buildGroups_aux]
  rfl

theorem foldl_unique_map (f : Int → Int) (hf : Function.Injective f) (keyf : Node → Int) :
    ∀ (nodes : List Node) (acc : List Int),
      nodes.foldl (fun acc nd => if f (keyf nd) ∈ acc then acc else acc ++ [f (keyf nd)])
          (acc.map f)
        = (nodes.foldl (fun acc nd => if keyf nd ∈ acc then acc else acc ++ [keyf nd]) acc).map
            f := by
  intro nodes
  induction nodes with
  | nil => intro acc; rfl
  | cons nd rest ih =>
    intro acc
    rw [List.foldl_cons, List.foldl_cons]
    by_cases hmem : keyf nd ∈ acc
    · have hfm : f (keyf nd) ∈ acc.map f := List.mem_map_of_mem f hmem
      rw [if_pos hfm, if_pos hmem, ih]
    · have hfm : ¬(f (keyf nd) ∈ acc.map f) := by
        intro hc
        obtain ⟨y, hy, he⟩ := List.mem_map.mp hc
        exact hmem (hf he ▸ hy)
      rw [if_neg hfm, if_neg hmem]
      have hmm : acc.map f ++ [f (keyf nd)] = (acc ++ [keyf nd]).map f := by simp
      rw [hmm, ih]

theorem keys_buildGroups_comp (nodes : List Node) (keyf : Node → Int) (f : Int → Int)
    (hf : Function.Injective f) :
    (buildGroups nodes (fun nd => f (keyf nd))).map Prod.fst
      = ((buildGroups nodes keyf).map Prod.fst).map f := by
  unfold buildGroups
  rw [keys_buildGroups_aux, keys_buildGroups_aux]
  have := foldl_unique_map f hf keyf nodes []
  simpa using this

theorem mem_foldl_unique (keyf : Node → Int) :
    ∀ (nodes : List Node) (acc : List Int) (x : Int),
      x ∈ nodes.foldl (fun acc nd => if keyf nd ∈ acc then acc else acc ++ [keyf nd]) acc
        ↔ x ∈ acc ∨ ∃ nd ∈ nodes, keyf nd = x := by
  intro nodes
  induction nodes with
  | nil => intro acc x; simp
  | cons nd rest ih =>
    intro acc x
    rw [List.foldl_cons]
    by_cases hmem : keyf nd ∈ acc
    · rw [if_pos hmem, ih]
      constructor
      · rintro (h | h)
        · exact Or.inl h
        · exact Or.inr (by obtain ⟨y, hy, he⟩ := h; exact ⟨y, List.mem_cons_of_mem nd hy, he⟩)
      · rintro (h | ⟨y, hy, he⟩)
        · exact Or.inl h
        · rcases List.mem_cons.mp hy with hy1 | hy2
          · subst hy1
            exact Or.inl (he ▸ hmem)
          · exact Or.inr ⟨y, hy2, he⟩
    · rw [if_neg hmem, ih]
      constructor
      · rintro (h | h)
        · rcases List.mem_append.mp h with h1 | h2
          · exact Or.inl h1
          · refine Or.inr ⟨nd, List.mem_cons_self nd rest, ?_⟩
            exact (List.mem_singleton.mp h2).symm
        · exact Or.inr (by obtain ⟨y, hy, he⟩ := h; exact ⟨y, List.mem_cons_of_mem nd hy, he⟩)
      · rintro (h | ⟨y, hy, he⟩)
        · exact Or.inl (List.mem_append.mpr (Or.inl h))
        · rcases List.mem_cons.mp hy with hy1 | hy2
          · subst hy1
            exact Or.inl (List.mem_append.mpr (Or.inr (by simp [he])))
          · exact Or.inr ⟨y, hy2, he⟩

theorem nodup_foldl_unique (keyf : Node → Int) :
    ∀ (nodes : List Node) (acc : List Int), acc.Nodup →
      (nodes.foldl (fun acc nd => if keyf nd ∈ acc then acc else acc ++ [keyf nd]) acc).Nodup := by
  intro nodes
  induction nodes with
  | nil => intro acc h; exact h
  | cons nd rest ih =>
    intro acc h
    rw [List.foldl_cons]
    by_cases hmem : keyf nd ∈ acc
    · rw [if_pos hmem]
      exact ih acc h
    · rw [if_neg hmem]
      refine ih _ ?_
      simp [List.nodup_append, h, hmem]

theorem uniqueSids_nodup (nodes : List Node) (alt : String) : (uniqueSids nodes alt).Nodup := by
  unfold uniqueSids
  exact nodup_foldl_unique (fun nd => stripeId nd.q nd.r alt) nodes [] List.nodup_nil

theorem mem_uniqueSids (nodes : List Node) (alt : String) (x : Int) :
    x ∈ uniqueSids nodes alt ↔ ∃ nd ∈ nodes, stripeId nd.q nd.r alt = x := by
  unfold uniqueSids
  rw [mem_foldl_unique (fun nd => stripeId nd.q nd.r alt) nodes [] x]
  simp

/-! ### Dense stripe indices and the partition invariant -/

theorem gmGroups_eq (nodes : List Node) (dir : String) :
    gmGroups nodes dir =
      (if dir ∈ revDirs
        then (List.insertionSort (· ≤ ·) (uniqueSids nodes (alternateDirection dir))).reverse
        else List.insertionSort (· ≤ ·) (uniqueSids nodes (alternateDirection dir))).map
        (fun s => (nodes.filter
            (fun nd => stripeId nd.q nd.r (alternateDirection dir) = s)).map mkItem) := by
  by_cases hrev : dir ∈ revDirs
  · rw [if_pos hrev]
    have hassoc : gmGroupsAssoc nodes dir
        = buildGroups nodes (fun nd =>
            ((uniqueSids nodes (alternateDirection dir)).length : Int)
              - stripeId nd.q nd.r (alternateDirection dir) - 1) := by
      simp only [gmGroupsAssoc, if_pos hrev]
    have hinj : Function.Injective
        (fun s : Int => ((uniqueSids nodes (alternateDirection dir)).length : Int) - s - 1) := by
      intro a b hab
      simp only at hab
      omega
    have hkeys : (gmGroupsAssoc nodes dir).map Prod.fst
        = (uniqueSids nodes (alternateDirection dir)).map
            (fun s => ((uniqueSids nodes (alternateDirection dir)).length : Int) - s - 1) := by
      rw [hassoc,
        keys_buildGroups_comp nodes (fun nd => stripeId nd.q nd.r (alternateDirection dir)) _ hinj,
        keys_buildGroups_raw]
    have hsorted2 : List.Sorted (· ≤ ·)
        (((List.insertionSort (· ≤ ·) (uniqueSids nodes (alternateDirection dir))).map
          (fun s => ((uniqueSids nodes (alternateDirection dir)).length : Int) - s - 1)).reverse) := by
      apply List.pairwise_reverse.mpr
      apply List.pairwise_map.mpr
      have hs := List.sorted_insertionSort (· ≤ ·) (uniqueSids nodes (alternateDirection dir))
      exact hs.imp (fun hab => by
        show (_ : Int) ≤ _
        omega)
    have hsortrev : List.insertionSort (· ≤ ·)
          ((uniqueSids nodes (alternateDirection dir)).map
            (fun s => ((uniqueSids nodes (alternateDirection dir)).length : Int) - s - 1))
        = ((List.insertionSort (· ≤ ·) (uniqueSids nodes (alternateDirection dir))).map
            (fun s => ((uniqueSids nodes (alternateDirection dir)).length : Int) - s - 1)).reverse := by
      apply List.eq_of_perm_of_sorted ?_ (List.sorted_insertionSort _ _) hsorted2
      refine (List.perm_insertionSort _ _).trans ?_
      refine (((List.perm_insertionSort (· ≤ ·)
        (uniqueSids nodes (alternateDirection dir))).symm.map _).trans ?_)
      exact (List.reverse_perm _).symm
    show (List.insertionSort (· ≤ ·) ((gmGroupsAssoc nodes dir).map Prod.fst)).map
        (fun k => assocGet (gmGroupsAssoc nodes dir) k) = _
    rw [hkeys, hsortrev, ← List.map_reverse, List.map_map]
    refine List.map_congr_left ?_
    intro s _
    show assocGet (gmGroupsAssoc nodes dir)
        (((uniqueSids nodes (alternateDirection dir)).length : Int) - s - 1)
      = (nodes.filter (fun nd => stripeId nd.q nd.r (alternateDirection dir) = s)).map mkItem
    rw [hassoc, assocGet_buildGroups]
    congr 1
    refine List.filter_congr ?_
    intro nd _
    have : (((uniqueSids nodes (alternateDirection dir)).length : Int)
          - stripeId nd.q nd.r (alternateDirection dir) - 1
        = ((uniqueSids nodes (alternateDirection dir)).length : Int) - s - 1)
        ↔ (stripeId nd.q nd.r (alternateDirection dir) = s) := by
      omega
    exact decide_eq_decide.mpr this
  · rw [if_neg hrev]
    have hassoc : gmGroupsAssoc nodes dir
        = buildGroups nodes (fun nd => stripeId nd.q nd.r (alternateDirection dir)) := by
      simp only [gmGroupsAssoc, if_neg hrev]
    show (List.insertionSort (· ≤ ·) ((gmGroupsAssoc nodes dir).map Prod.fst)).map
        (fun k => assocGet (gmGroupsAssoc nodes dir) k) = _
    rw [hassoc, keys_buildGroups_raw]
    refine List.map_congr_left ?_
    intro s _
    exact assocGet_buildGroups _ nodes s

/-- Claim C7: for a non-empty node set and recognized direction, decomposition
groups nodes by the alternate direction's raw stripe key; the stripe of
ascending-raw-key rank `i` sits at dense index `i`, except for directions in
{S, W, SW, SE}, where it sits at index `k-1-i` (the group list is the
raw-key-sorted list of groups, reversed). -/
theorem claim_C7_dense_index_order (nodes : List Node) (dir : String)
    (hne : nodes ≠ []) (hdir : dir ∈ recognizedDirs) :
    gmGroups nodes dir =
      (if dir ∈ revDirs
        then (List.insertionSort (· ≤ ·) (uniqueSids nodes (alternateDirection dir))).reverse
        else List.insertionSort (· ≤ ·) (uniqueSids nodes (alternateDirection dir))).map
        (fun s => (nodes.filter
            (fun nd => stripeId nd.q nd.r (alternateDirection dir) = s)).map mkItem)
    ∧ (gmGroups nodes dir).length = (uniqueSids nodes (alternateDirection dir)).length := by
  refine ⟨gmGroups_eq nodes dir, ?_⟩
  rw [gmGroups_eq nodes dir]
  by_cases hrev : dir ∈ revDirs
  · rw [if_pos hrev, List.length_map, List.length_reverse]
    exact (List.perm_insertionSort _ _).length_eq
  · rw [if_neg hrev, List.length_map]
    exact (List.perm_insertionSort _ _).length_eq

/-- Witness for claim C7 at the two-node set with direction "S" (a reversed
direction). -/
theorem claim_C7_witness :
    ([⟨0, 0, 0⟩, ⟨1, 1, 0⟩] ≠ ([] : List Node)) ∧ "S" ∈ recognizedDirs ∧
    (gmGroups [⟨0, 0, 0⟩, ⟨1, 1, 0⟩] "S" =
      (if "S" ∈ revDirs
        then (List.insertionSort (· ≤ ·)
          (uniqueSids [⟨0, 0, 0⟩, ⟨1, 1, 0⟩] (alternateDirection "S"))).reverse
        else List.insertionSort (· ≤ ·)
          (uniqueSids [⟨0, 0, 0⟩, ⟨1, 1, 0⟩] (alternateDirection "S"))).map
        (fun s => (([⟨0, 0, 0⟩, ⟨1, 1, 0⟩] : List Node).filter
            (fun nd => stripeId nd.q nd.r (alternateDirection "S") = s)).map mkItem)
    ∧ (gmGroups [⟨0, 0, 0⟩, ⟨1, 1, 0⟩] "S").length
        = (uniqueSids [⟨0, 0, 0⟩, ⟨1, 1, 0⟩] (alternateDirection "S")).length) :=
  ⟨by decide, by decide, claim_C7_dense_index_order [⟨0, 0, 0⟩, ⟨1, 1, 0⟩] "S"
    (by decide) (by decide)⟩

theorem join_filter_perm (keyf : Node → Int) :
    ∀ (ks : List Int) (nodes : List Node), ks.Nodup →
      (∀ nd ∈ nodes, keyf nd ∈ ks) →
      List.Perm ((ks.map (fun key => nodes.filter (fun nd => keyf nd = key))).join) nodes := by
  intro ks
  induction ks with
  | nil =>
    intro nodes _ hcov
    have hnil : nodes = [] :=
      List.eq_nil_iff_forall_not_mem.mpr (fun nd hnd => by simpa using hcov nd hnd)
    subst hnil
    simp
  | cons k ks ih =>
    intro nodes hnodup hcov
    have hknot : k ∉ ks := (List.nodup_cons.mp hnodup).1
    have hnd2 : ks.Nodup := (List.nodup_cons.mp hnodup).2
    have hjcons : ∀ (x : List Node) (L : List (List Node)), (x :: L).join = x ++ L.join :=
      fun x L => rfl
    rw [List.map_cons, hjcons]
    have htail : ∀ key ∈ ks, nodes.filter (fun nd => keyf nd = key)
        = (nodes.filter (fun nd => !decide (keyf nd = k))).filter (fun nd => keyf nd = key) := by
      intro key hkey
      rw [List.filter_filter]
      refine (List.filter_congr ?_).symm
      intro nd _
      by_cases h : keyf nd = key
      · have hnk : ¬(keyf nd = k) := by
          rw [h]
          intro hc
          exact hknot (hc ▸ hkey)
        have hkk : ¬(key = k) := fun hc => hknot (hc ▸ hkey)
        simp [h, hnk, hkk]
      · simp [h]
    rw [List.map_congr_left htail]
    have hih := ih (nodes.filter (fun nd => !decide (keyf nd = k))) hnd2 ?_
    · exact (hih.append_left _).trans (List.filter_append_perm _ nodes)
    · intro nd hnd
      have hmem := List.mem_filter.mp hnd
      rcases List.mem_cons.mp (hcov nd hmem.1) with h1 | h2
      · exfalso
        have := hmem.2
        simp [h1] at this
      · exact h2

/-- Claim C8: for every direction token and every node set, the stripes of the
decomposition partition the node set exactly: the concatenation of the
stripes' member ids is a permutation of the input ids, and when the input ids
are distinct no id occurs twice across or within stripes. -/
theorem claim_C8_partition (nodes : List Node) (dir : String) :
    List.Perm (((gmGroups nodes dir).map (fun g => g.map Item.node)).join) (nodes.map Node.id)
    ∧ ((nodes.map Node.id).Nodup →
        (((gmGroups nodes dir).map (fun g => g.map Item.node)).join).Nodup) := by
  have hks : ∀ ks : List Int, ks.Nodup →
      (∀ nd ∈ nodes, stripeId nd.q nd.r (alternateDirection dir) ∈ ks) →
      List.Perm (((ks.map (fun s => (nodes.filter
          (fun nd => stripeId nd.q nd.r (alternateDirection dir) = s)).map mkItem)).map
            (fun g => g.map Item.node)).join)
        (nodes.map Node.id) := by
    intro ks hnodup hcov
    have hfun : ∀ s : Int,
        ((nodes.filter (fun nd => stripeId nd.q nd.r (alternateDirection dir) = s)).map
          mkItem).map Item.node
        = (nodes.filter (fun nd => stripeId nd.q nd.r (alternateDirection dir) = s)).map
            Node.id := by
      intro s
      rw [List.map_map]
      rfl
    have hstep : ((ks.map (fun s => (nodes.filter
          (fun nd => stripeId nd.q nd.r (alternateDirection dir) = s)).map mkItem)).map
            (fun g => g.map Item.node))
        = ks.map (fun s => (nodes.filter
            (fun nd => stripeId nd.q nd.r (alternateDirection dir) = s)).map Node.id) := by
      rw [List.map_map]
      refine List.map_congr_left ?_
      intro s _
      exact hfun s
    rw [hstep]
    have hjoin : (ks.map (fun s => (nodes.filter
          (fun nd => stripeId nd.q nd.r (alternateDirection dir) = s)).map Node.id)).join
        = ((ks.map (fun s => nodes.filter
            (fun nd => stripeId nd.q nd.r (alternateDirection dir) = s))).join).map Node.id := by
      rw [List.map_join, List.map_map]
      rfl
    rw [hjoin]
    exact (join_filter_perm (fun nd => stripeId nd.q nd.r (alternateDirection dir))
      ks nodes hnodup hcov).map Node.id
  have hperm : List.Perm (((gmGroups nodes dir).map (fun g => g.map Item.node)).join)
      (nodes.map Node.id) := by
    rw [gmGroups_eq nodes dir]
    by_cases hrev : dir ∈ revDirs
    · rw [if_pos hrev]
      refine hks _ ?_ ?_
      · exact List.nodup_reverse.mpr
          ((List.perm_insertionSort _ _).nodup_iff.mpr (uniqueSids_nodup nodes _))
      · intro nd hnd
        refine List.mem_reverse.mpr ?_
        exact (List.perm_insertionSort _ _).mem_iff.mpr
          ((mem_uniqueSids nodes _ _).mpr ⟨nd, hnd, rfl⟩)
    · rw [if_neg hrev]
      refine hks _ ?_ ?_
      · exact (List.perm_insertionSort _ _).nodup_iff.mpr (uniqueSids_nodup nodes _)
      · intro nd hnd
        exact (List.perm_insertionSort _ _).mem_iff.mpr
          ((mem_uniqueSids nodes _ _).mpr ⟨nd, hnd, rfl⟩)
  exact ⟨hperm, fun h => hperm.nodup_iff.mpr h⟩

/-- Witness for claim C8's no-duplicate part at a concrete three-node set. -/
theorem claim_C8_witness :
    (([⟨0, 0, 0⟩, ⟨1, 1, 0⟩, ⟨2, 0, 1⟩] : List Node).map Node.id).Nodup
    ∧ List.Perm (((gmGroups [⟨0, 0, 0⟩, ⟨1, 1, 0⟩, ⟨2, 0, 1⟩] "SE").map
        (fun g => g.map Item.node)).join)
        (([⟨0, 0, 0⟩, ⟨1, 1, 0⟩, ⟨2, 0, 1⟩] : List Node).map Node.id)
    ∧ (((gmGroups [⟨0, 0, 0⟩, ⟨1, 1, 0⟩, ⟨2, 0, 1⟩] "SE").map
        (fun g => g.map Item.node)).join).Nodup :=
  ⟨by decide, (claim_C8_partition [⟨0, 0, 0⟩, ⟨1, 1, 0⟩, ⟨2, 0, 1⟩] "SE").1,
    (claim_C8_partition [⟨0, 0, 0⟩, ⟨1, 1, 0⟩, ⟨2, 0, 1⟩] "SE").2 (by decide)⟩

/-! ### The stripe-level engine simulates the segment-level engine -/

theorem projG_setFlags (v w : Bool) (g : List Item) (hg : g ≠ []) :
    projG (setFlags v w g) = {projG g with primary := v, secondary := w} := by
  cases g with
  | nil => exact absurd rfl hg
  | cons it t => rfl

theorem setFlags_ne_nil (v w : Bool) (g : List Item) (hg : g ≠ []) : setFlags v w g ≠ [] := by
  cases g with
  | nil => exact absurd rfl hg
  | cons it t => simp [setFlags, setAllP, setAllS]

theorem gFinishGroup_proj (g : List Item) (hg : g ≠ []) :
    projG (gFinishGroup g) = deactivateReset (addBits (projG g)) := by
  cases g with
  | nil => exact absurd rfl hg
  | cons it t =>
    by_cases hp : it.primary
    · by_cases hs : it.secondary
      · by_cases ha : it.active
        · simp [gFinishGroup, projG, itemSeg, addBits, deactivateReset, setAllP, setAllS,
            hp, hs, ha]
        · simp [gFinishGroup, projG, itemSeg, addBits, deactivateReset, setAllP, setAllS,
            hp, hs, ha]
      · simp [gFinishGroup, projG, itemSeg, addBits, deactivateReset, setAllP, setAllS, hp, hs]
    · by_cases hs : it.secondary
      · by_cases ha : it.active
        · simp [gFinishGroup, projG, itemSeg, addBits, deactivateReset, setAllP, setAllS,
            hp, hs, ha]
        · simp [gFinishGroup, projG, itemSeg, addBits, deactivateReset, setAllP, setAllS,
            hp, hs, ha]
      · simp [gFinishGroup, projG, itemSeg, addBits, deactivateReset, setAllP, setAllS, hp, hs]

theorem gFinishGroup_ne_nil (g : List Item) (hg : g ≠ []) : gFinishGroup g ≠ [] := by
  cases g with
  | nil => exact absurd rfl hg
  | cons it t =>
    simp only [gFinishGroup, setAllP, setAllS]
    repeat' split
    all_goals simp

theorem gBeepRight_proj (xs : List (List Item)) : ∀ ph : Item, (∀ g ∈ xs, g ≠ []) →
    (gBeepRight ph xs).1.map projG = (beepRight (itemSeg ph) (xs.map projG)).1
    ∧ (∀ g ∈ (gBeepRight ph xs).1, g ≠ []) := by
  induction xs with
  | nil => intro ph _; exact ⟨rfl, by simp [gBeepRight]⟩
  | cons g rest ih =>
    intro ph hne
    have hg : g ≠ [] := hne g (List.mem_cons_self g rest)
    have hrest : ∀ g2 ∈ rest, g2 ≠ [] := fun g2 h2 => hne g2 (List.mem_cons_of_mem g h2)
    have hmain : ∀ (v w : Bool),
        ((setFlags v w g) :: (gBeepRight (((setFlags v w g)).headD default) rest).1).map projG
          = {projG g with primary := v, secondary := w}
              :: (beepRight {projG g with primary := v, secondary := w} (rest.map projG)).1
          ∧ ∀ g2 ∈ (setFlags v w g) :: (gBeepRight (((setFlags v w g)).headD default) rest).1,
              g2 ≠ [] := by
      intro v w
      have hsf := projG_setFlags v w g hg
      have hihr := ih ((setFlags v w g).headD default) hrest
      constructor
      · rw [List.map_cons, hsf, hihr.1]
        have hcarry : itemSeg ((setFlags v w g).headD default) = projG (setFlags v w g) := rfl
        rw [hcarry, hsf]
      · intro g2 h2
        rcases List.mem_cons.mp h2 with h2a | h2b
        · subst h2a
          exact setFlags_ne_nil v w g hg
        · exact hihr.2 g2 h2b
    have hid :
        (g :: (gBeepRight (g.headD default) rest).1).map projG
          = projG g :: (beepRight (projG g) (rest.map projG)).1
          ∧ ∀ g2 ∈ g :: (gBeepRight (g.headD default) rest).1, g2 ≠ [] := by
      have hihr := ih (g.headD default) hrest
      constructor
      · rw [List.map_cons, hihr.1]
        have hcarry : itemSeg (g.headD default) = projG g := rfl
        rw [hcarry]
      · intro g2 h2
        rcases List.mem_cons.mp h2 with h2a | h2b
        · subst h2a; exact hg
        · exact hihr.2 g2 h2b
    by_cases h1 : (ph.primary && (g.headD default).active) = true
    · have hrs : rightStep (itemSeg ph) (projG g)
          = ({projG g with primary := false, secondary := true}, 1) := by
        have g1 : ((itemSeg ph).primary && (projG g).active) = true := h1
        unfold rightStep
        rw [if_pos g1]
      refine ⟨?_, ?_⟩
      · simp only [List.map_cons, gBeepRight, beepRight, if_pos h1, hrs]
        exact (hmain false true).1
      · simp only [gBeepRight, if_pos h1]
        exact (hmain false true).2
    · by_cases h2 : (ph.primary && !(g.headD default).active) = true
      · have hrs : rightStep (itemSeg ph) (projG g)
            = ({projG g with primary := true, secondary := false}, 1) := by
          have g1 : ¬(((itemSeg ph).primary && (projG g).active) = true) := h1
          have g2 : ((itemSeg ph).primary && !(projG g).active) = true := h2
          unfold rightStep
          rw [if_neg g1, if_pos g2]
        refine ⟨?_, ?_⟩
        · simp only [List.map_cons, gBeepRight, beepRight, if_neg h1, if_pos h2, hrs]
          exact (hmain true false).1
        · simp only [gBeepRight, if_neg h1, if_pos h2]
          exact (hmain true false).2
      · by_cases h3 : (ph.secondary && (g.headD default).active) = true
        · have hrs : rightStep (itemSeg ph) (projG g)
              = ({projG g with primary := true, secondary := false}, 1) := by
            have g1 : ¬(((itemSeg ph).primary && (projG g).active) = true) := h1
            have g2 : ¬(((itemSeg ph).primary && !(projG g).active) = true) := h2
            have g3 : ((itemSeg ph).secondary && (projG g).active) = true := h3
            unfold rightStep
            rw [if_neg g1, if_neg g2, if_pos g3]
          refine ⟨?_, ?_⟩
          · simp only [List.map_cons, gBeepRight, beepRight, if_neg h1, if_neg h2, if_pos h3,
              hrs]
            exact (hmain true false).1
          · simp only [gBeepRight, if_neg h1, if_neg h2, if_pos h3]
            exact (hmain true false).2
        · by_cases h4 : (ph.secondary && !(g.headD default).active) = true
          · have hrs : rightStep (itemSeg ph) (projG g)
                = ({projG g with primary := false, secondary := true}, 1) := by
              have g1 : ¬(((itemSeg ph).primary && (projG g).active) = true) := h1
              have g2 : ¬(((itemSeg ph).primary && !(projG g).active) = true) := h2
              have g3 : ¬(((itemSeg ph).secondary && (projG g).active) = true) := h3
              have g4 : ((itemSeg ph).secondary && !(projG g).active) = true := h4
              unfold rightStep
              rw [if_neg g1, if_neg g2, if_neg g3, if_pos g4]
            refine ⟨?_, ?_⟩
            · simp only [List.map_cons, gBeepRight, beepRight, if_neg h1, if_neg h2, if_neg h3,
                if_pos h4, hrs]
              exact (hmain false true).1
            · simp only [gBeepRight, if_neg h1, if_neg h2, if_neg h3, if_pos h4]
              exact (hmain false true).2
          · have hrs : rightStep (itemSeg ph) (projG g) = (projG g, 0) := by
              have g1 : ¬(((itemSeg ph).primary && (projG g).active) = true) := h1
              have g2 : ¬(((itemSeg ph).primary && !(projG g).active) = true) := h2
              have g3 : ¬(((itemSeg ph).secondary && (projG g).active) = true) := h3
              have g4 : ¬(((itemSeg ph).secondary && !(projG g).active) = true) := h4
              unfold rightStep
              rw [if_neg g1, if_neg g2, if_neg g3, if_neg g4]
            refine ⟨?_, ?_⟩
            · simp only [List.map_cons, gBeepRight, beepRight, if_neg h1, if_neg h2, if_neg h3,
                if_neg h4, hrs]
              exact hid.1
            · simp only [gBeepRight, if_neg h1, if_neg h2, if_neg h3, if_neg h4]
              exact hid.2

theorem gBeepLeft_proj (xs : List (List Item)) : ∀ nh : Item, (∀ g ∈ xs, g ≠ []) →
    (gBeepLeft nh xs).1.map projG = (beepLeft (itemSeg nh) (xs.map projG)).1
    ∧ (∀ g ∈ (gBeepLeft nh xs).1, g ≠ []) := by
  induction xs with
  | nil => intro nh _; exact ⟨rfl, by simp [gBeepLeft]⟩
  | cons g rest ih =>
    intro nh hne
    have hg : g ≠ [] := hne g (List.mem_cons_self g rest)
    have hrest : ∀ g2 ∈ rest, g2 ≠ [] := fun g2 h2 => hne g2 (List.mem_cons_of_mem g h2)
    have hmain : ∀ (v w : Bool),
        ((setFlags v w g) :: (gBeepLeft (((setFlags v w g)).headD default) rest).1).map projG
          = {projG g with primary := v, secondary := w}
              :: (beepLeft {projG g with primary := v, secondary := w} (rest.map projG)).1
          ∧ ∀ g2 ∈ (setFlags v w g) :: (gBeepLeft (((setFlags v w g)).headD default) rest).1,
              g2 ≠ [] := by
      intro v w
      have hsf := projG_setFlags v w g hg
      have hihr := ih ((setFlags v w g).headD default) hrest
      constructor
      · rw [List.map_cons, hsf, hihr.1]
        have hcarry : itemSeg ((setFlags v w g).headD default) = projG (setFlags v w g) := rfl
        rw [hcarry, hsf]
      · intro g2 h2
        rcases List.mem_cons.mp h2 with h2a | h2b
        · subst h2a
          exact setFlags_ne_nil v w g hg
        · exact hihr.2 g2 h2b
    have hid :
        (g :: (gBeepLeft (g.headD default) rest).1).map projG
          = projG g :: (beepLeft (projG g) (rest.map projG)).1
          ∧ ∀ g2 ∈ g :: (gBeepLeft (g.headD default) rest).1, g2 ≠ [] := by
      have hihr := ih (g.headD default) hrest
      constructor
      · rw [List.map_cons, hihr.1]
        have hcarry : itemSeg (g.headD default) = projG g := rfl
        rw [hcarry]
      · intro g2 h2
        rcases List.mem_cons.mp h2 with h2a | h2b
        · subst h2a; exact hg
        · exact hihr.2 g2 h2b
    by_cases h1 : (nh.primary && nh.active) = true
    · have hrs : leftStep (itemSeg nh) (projG g)
          = ({projG g with primary := false, secondary := true}, 1) := by
        have g1 : ((itemSeg nh).primary && (itemSeg nh).active) = true := h1
        unfold leftStep
        rw [if_pos g1]
      refine ⟨?_, ?_⟩
      · simp only [List.map_cons, gBeepLeft, beepLeft, if_pos h1, hrs]
        exact (hmain false true).1
      · simp only [gBeepLeft, if_pos h1]
        exact (hmain false true).2
    · by_cases h2 : (nh.primary && !nh.active) = true
      · have hrs : leftStep (itemSeg nh) (projG g)
            = ({projG g with primary := true, secondary := false}, 1) := by
          have g1 : ¬(((itemSeg nh).primary && (itemSeg nh).active) = true) := h1
          have g2 : ((itemSeg nh).primary && !(itemSeg nh).active) = true := h2
          unfold leftStep
          rw [if_neg g1, if_pos g2]
        refine ⟨?_, ?_⟩
        · simp only [List.map_cons, gBeepLeft, beepLeft, if_neg h1, if_pos h2, hrs]
          exact (hmain true false).1
        · simp only [gBeepLeft, if_neg h1, if_pos h2]
          exact (hmain true false).2
      · by_cases h3 : (nh.secondary && nh.active) = true
        · have hrs : leftStep (itemSeg nh) (projG g)
              = ({projG g with primary := true, secondary := false}, 1) := by
            have g1 : ¬(((itemSeg nh).primary && (itemSeg nh).active) = true) := h1
            have g2 : ¬(((itemSeg nh).primary && !(itemSeg nh).active) = true) := h2
            have g3 : ((itemSeg nh).secondary && (itemSeg nh).active) = true := h3
            unfold leftStep
            rw [if_neg g1, if_neg g2, if_pos g3]
          refine ⟨?_, ?_⟩
          · simp only [List.map_cons, gBeepLeft, beepLeft, if_neg h1, if_neg h2, if_pos h3, hrs]
            exact (hmain true false).1
          · simp only [gBeepLeft, if_neg h1, if_neg h2, if_pos h3]
            exact (hmain true false).2
        · by_cases h4 : (nh.secondary && !nh.active) = true
          · have hrs : leftStep (itemSeg nh) (projG g)
                = ({projG g with primary := false, secondary := true}, 1) := by
              have g1 : ¬(((itemSeg nh).primary && (itemSeg nh).active) = true) := h1
              have g2 : ¬(((itemSeg nh).primary && !(itemSeg nh).active) = true) := h2
              have g3 : ¬(((itemSeg nh).secondary && (itemSeg nh).active) = true) := h3
              have g4 : ((itemSeg nh).secondary && !(itemSeg nh).active) = true := h4
              unfold leftStep
              rw [if_neg g1, if_neg g2, if_neg g3, if_pos g4]
            refine ⟨?_, ?_⟩
            · simp only [List.map_cons, gBeepLeft, beepLeft, if_neg h1, if_neg h2, if_neg h3,
                if_pos h4, hrs]
              exact (hmain false true).1
            · simp only [gBeepLeft, if_neg h1, if_neg h2, if_neg h3, if_pos h4]
              exact (hmain false true).2
          · have hrs : leftStep (itemSeg nh) (projG g) = (projG g, 0) := by
              have g1 : ¬(((itemSeg nh).primary && (itemSeg nh).active) = true) := h1
              have g2 : ¬(((itemSeg nh).primary && !(itemSeg nh).active) = true) := h2
              have g3 : ¬(((itemSeg nh).secondary && (itemSeg nh).active) = true) := h3
              have g4 : ¬(((itemSeg nh).secondary && !(itemSeg nh).active) = true) := h4
              unfold leftStep
              rw [if_neg g1, if_neg g2, if_neg g3, if_neg g4]
            refine ⟨?_, ?_⟩
            · simp only [List.map_cons, gBeepLeft, beepLeft, if_neg h1, if_neg h2, if_neg h3,
                if_neg h4, hrs]
              exact hid.1
            · simp only [gBeepLeft, if_neg h1, if_neg h2, if_neg h3, if_neg h4]
              exact hid.2

theorem projG_setAllP (g : List Item) (hg : g ≠ []) :
    projG (setAllP true g) = {projG g with primary := true} := by
  cases g with
  | nil => exact absurd rfl hg
  | cons it t => rfl

theorem setAllP_ne_nil (v : Bool) (g : List Item) (hg : g ≠ []) : setAllP v g ≠ [] := by
  cases g with
  | nil => exact absurd rfl hg
  | cons it t => simp [setAllP]

theorem getD_map_projG (G : List (List Item)) (i : Nat) :
    projG (G.getD i []) = (G.map projG).getD i default := by
  rw [listGetD_eq, listGetD_eq, List.getElem?_map]
  cases G[i]? with
  | none => rfl
  | some g => rfl

theorem gRound_proj (find : Nat) (G : List (List Item)) (hG : ∀ g ∈ G, g ≠ []) :
    (gRound find G).1.map projG = pascStep find (G.map projG)
    ∧ (∀ g ∈ (gRound find G).1, g ≠ []) := by
  have hdropne : ∀ g ∈ G.drop (find + 1), g ≠ [] := fun g h => hG g (List.drop_subset _ _ h)
  obtain ⟨hr1, hr2⟩ := gBeepRight_proj (G.drop (find + 1)) ((G.getD find []).headD default)
    hdropne
  have hrmap : (gBeepRight ((G.getD find []).headD default) (G.drop (find + 1))).1.map projG
      = (beepRight ((G.map projG).getD find default) ((G.map projG).drop (find + 1))).1 := by
    rw [hr1, ← List.map_drop]
    have hcarry : itemSeg ((G.getD find []).headD default) = projG (G.getD find []) := rfl
    rw [hcarry, getD_map_projG]
  have hG1ne : ∀ g ∈ G.take (find + 1)
      ++ (gBeepRight ((G.getD find []).headD default) (G.drop (find + 1))).1, g ≠ [] := by
    intro g h
    rcases List.mem_append.mp h with h | h
    · exact hG g (List.take_subset _ _ h)
    · exact hr2 g h
  have hG1map : (G.take (find + 1)
        ++ (gBeepRight ((G.getD find []).headD default) (G.drop (find + 1))).1).map projG
      = (G.map projG).take (find + 1)
        ++ (beepRight ((G.map projG).getD find default) ((G.map projG).drop (find + 1))).1 := by
    rw [List.map_append, List.map_take, hrmap]
  set G1 := G.take (find + 1)
      ++ (gBeepRight ((G.getD find []).headD default) (G.drop (find + 1))).1 with hG1def
  have hrevne : ∀ g ∈ (G1.take find).reverse, g ≠ [] :=
    fun g h => hG1ne g (List.take_subset _ _ (List.mem_reverse.mp h))
  obtain ⟨hl1, hl2⟩ := gBeepLeft_proj ((G1.take find).reverse) ((G1.getD find []).headD default)
    hrevne
  have hlmap : (gBeepLeft ((G1.getD find []).headD default) ((G1.take find).reverse)).1.map projG
      = (beepLeft ((G1.map projG).getD find default) (((G1.map projG).take find).reverse)).1 := by
    rw [hl1, ← List.map_take, ← List.map_reverse]
    have hcarry : itemSeg ((G1.getD find []).headD default) = projG (G1.getD find []) := rfl
    rw [hcarry, getD_map_projG]
  set G2 := (gBeepLeft ((G1.getD find []).headD default) ((G1.take find).reverse)).1.reverse
      ++ G1.drop find with hG2def
  have hG2ne : ∀ g ∈ G2, g ≠ [] := by
    intro g h
    rcases List.mem_append.mp h with h | h
    · exact hl2 g (List.mem_reverse.mp h)
    · exact hG1ne g (List.drop_subset _ _ h)
  have hG2map : G2.map projG
      = (beepLeft ((G1.map projG).getD find default)
          (((G1.map projG).take find).reverse)).1.reverse ++ (G1.map projG).drop find := by
    rw [hG2def, List.map_append, List.map_reverse, hlmap, List.map_drop]
  have hG2seg : G2.map projG = (sweepPhase find (G.map projG)).1 := by
    rw [hG2map, hG1map]
    simp only [sweepPhase]
  have hG3map : (G2.map gFinishGroup).map projG
      = ((G2.map projG).map addBits).map deactivateReset := by
    rw [List.map_map, List.map_map, List.map_map]
    refine List.map_congr_left ?_
    intro g hgm
    show projG (gFinishGroup g) = deactivateReset (addBits (projG g))
    exact gFinishGroup_proj g (hG2ne g hgm)
  have hG3ne : ∀ g ∈ G2.map gFinishGroup, g ≠ [] := by
    intro g h
    obtain ⟨g0, hg0, rfl⟩ := List.mem_map.mp h
    exact gFinishGroup_ne_nil g0 (hG2ne g0 hg0)
  have hG3seg : (G2.map gFinishGroup).map projG
      = ((sweepPhase find (G.map projG)).1.map addBits).map deactivateReset := by
    rw [hG3map, hG2seg]
  constructor
  · show ((G2.map gFinishGroup).set find
        (setAllP true ((G2.map gFinishGroup).getD find []))).map projG
      = pascStep find (G.map projG)
    rw [List.map_set]
    by_cases hfl : find < (G2.map gFinishGroup).length
    · have hmem : (G2.map gFinishGroup).getD find [] ∈ G2.map gFinishGroup :=
        List.getElem?_mem (getElem?_of_lt _ find hfl [])
      have hne3 : (G2.map gFinishGroup).getD find [] ≠ [] := hG3ne _ hmem
      rw [projG_setAllP _ hne3, getD_map_projG, hG3seg]
      show (((sweepPhase find (G.map projG)).1.map addBits).map deactivateReset).set find
          {(((sweepPhase find (G.map projG)).1.map addBits).map
            deactivateReset).getD find default with primary := true}
        = pascStep find (G.map projG)
      simp only [pascStep, pascRound]
    · have hlen34 : (((sweepPhase find (G.map projG)).1.map addBits).map deactivateReset).length
          = (G2.map gFinishGroup).length := by
        have h1 := congrArg List.length hG3seg
        simp only [List.length_map] at h1
        simp only [List.length_map]
        omega
      have hnop1 : ((G2.map gFinishGroup).map projG).set find
          (projG (setAllP true ((G2.map gFinishGroup).getD find [])))
          = (G2.map gFinishGroup).map projG := by
        refine List.set_eq_of_length_le ?_
        simp only [List.length_map]
        simp only [List.length_map] at hfl
        omega
      rw [hnop1, hG3seg]
      show _ = pascStep find (G.map projG)
      simp only [pascStep, pascRound]
      refine (List.set_eq_of_length_le ?_).symm
      simp only [List.length_map] at hlen34 hfl ⊢
      omega
  · intro g h
    have h2 : g ∈ (G2.map gFinishGroup).set find
        (setAllP true ((G2.map gFinishGroup).getD find [])) := h
    by_cases hfl : find < (G2.map gFinishGroup).length
    · rcases List.mem_or_eq_of_mem_set h2 with h3 | rfl
      · exact hG3ne g h3
      · have hmem : (G2.map gFinishGroup).getD find [] ∈ G2.map gFinishGroup :=
          List.getElem?_mem (getElem?_of_lt _ find hfl [])
        exact setAllP_ne_nil true _ (hG3ne _ hmem)
    · rw [List.set_eq_of_length_le (by omega)] at h2
      exact hG3ne g h2

theorem gActiveSum_proj (G : List (List Item)) : gActiveSum G = activeSum (G.map projG) := by
  unfold gActiveSum activeSum
  rw [List.countP_map]
  rfl

theorem sendBeepAux_steps_irrel (ref : Nat) :
    ∀ (fuel : Nat) (S : List Seg) (iters s1 s2 : Nat),
      (sendBeepAux ref fuel S iters s1).map (fun o => (o.1, o.2.1))
        = (sendBeepAux ref fuel S iters s2).map (fun o => (o.1, o.2.1)) := by
  intro fuel
  induction fuel with
  | zero =>
    intro S iters s1 s2
    simp only [sendBeepAux]
    by_cases h : activeSum S = 1
    · rw [if_pos h, if_pos h]
      try rfl
    · rw [if_neg h, if_neg h]
      try rfl
  | succ fuel ih =>
    intro S iters s1 s2
    simp only [sendBeepAux]
    by_cases h : activeSum S = 1
    · rw [if_pos h, if_pos h]
      try rfl
    · rw [if_neg h, if_neg h]
      exact ih (pascRound ref S).1 (iters + 1) (s1 + (pascRound ref S).2) (s2 + (pascRound ref S).2)

theorem gSendBeepAux_proj (find : Nat) :
    ∀ (fuel : Nat) (G : List (List Item)) (iters lines steps : Nat), (∀ g ∈ G, g ≠ []) →
      (gSendBeepAux find fuel G iters lines steps).map (fun o => (o.1.map projG, o.2.1))
        = (sendBeepAux find fuel (G.map projG) iters steps).map (fun o => (o.1, o.2.1)) := by
  intro fuel
  induction fuel with
  | zero =>
    intro G iters lines steps hG
    simp only [gSendBeepAux, sendBeepAux, gActiveSum_proj]
    by_cases h : activeSum (G.map projG) = 1
    · rw [if_pos h, if_pos h]
      try rfl
    · rw [if_neg h, if_neg h]
      try rfl
  | succ fuel ih =>
    intro G iters lines steps hG
    simp only [gSendBeepAux, sendBeepAux, gActiveSum_proj]
    by_cases h : activeSum (G.map projG) = 1
    · rw [if_pos h, if_pos h]
      try rfl
    · rw [if_neg h, if_neg h]
      obtain ⟨hmap, hne⟩ := gRound_proj find G hG
      rw [ih (gRound find G).1 (iters + 1) (lines + (gRound find G).2.2)
        (steps + (gRound find G).2.1) hne, hmap]
      exact sendBeepAux_steps_irrel find fuel (pascStep find (G.map projG)) (iters + 1)
        (steps + (gRound find G).2.1) (steps + (pascRound find (G.map projG)).2)

theorem gmGroups_ne_nil (nodes : List Node) (dir : String) :
    ∀ g ∈ gmGroups nodes dir, g ≠ [] := by
  intro g hg
  rw [gmGroups_eq nodes dir] at hg
  obtain ⟨s, hs, rfl⟩ := List.mem_map.mp hg
  have hsu : s ∈ uniqueSids nodes (alternateDirection dir) := by
    by_cases hrev : dir ∈ revDirs
    · rw [if_pos hrev] at hs
      exact (List.perm_insertionSort _ _).mem_iff.mp (List.mem_reverse.mp hs)
    · rw [if_neg hrev] at hs
      exact (List.perm_insertionSort _ _).mem_iff.mp hs
  obtain ⟨nd, hnd, hraw⟩ := (mem_uniqueSids nodes _ s).mp hsu
  have hmem : mkItem nd ∈ (nodes.filter
      (fun nd2 => stripeId nd2.q nd2.r (alternateDirection dir) = s)).map mkItem :=
    List.mem_map_of_mem _ (List.mem_filter.mpr ⟨hnd, by simp [hraw]⟩)
  exact List.ne_nil_of_mem hmem

theorem projG_gmGroups_fresh (nodes : List Node) (dir : String) :
    ∀ g ∈ gmGroups nodes dir, projG g = ⟨false, false, true, []⟩ := by
  intro g hg
  rw [gmGroups_eq nodes dir] at hg
  obtain ⟨s, hs, rfl⟩ := List.mem_map.mp hg
  have hsu : s ∈ uniqueSids nodes (alternateDirection dir) := by
    by_cases hrev : dir ∈ revDirs
    · rw [if_pos hrev] at hs
      exact (List.perm_insertionSort _ _).mem_iff.mp (List.mem_reverse.mp hs)
    · rw [if_neg hrev] at hs
      exact (List.perm_insertionSort _ _).mem_iff.mp hs
  obtain ⟨nd, hnd, hraw⟩ := (mem_uniqueSids nodes _ s).mp hsu
  have hmemf : nd ∈ nodes.filter
      (fun nd2 => stripeId nd2.q nd2.r (alternateDirection dir) = s) :=
    List.mem_filter.mpr ⟨hnd, by simp [hraw]⟩
  cases hfe : nodes.filter (fun nd2 => stripeId nd2.q nd2.r (alternateDirection dir) = s) with
  | nil =>
    rw [hfe] at hmemf
    simp at hmemf
  | cons nd0 t =>
    rfl

theorem map_projG_gmGroups (nodes : List Node) (dir : String) :
    (gmGroups nodes dir).map projG
      = List.replicate (gmGroups nodes dir).length ⟨false, false, true, []⟩ := by
  refine List.eq_replicate.mpr ⟨by simp, ?_⟩
  intro b hb
  obtain ⟨g, hg, rfl⟩ := List.mem_map.mp hb
  exact projG_gmGroups_fresh nodes dir g hg

theorem gmFind_lt (nodes : List Node) (dir : String) (refId : Int)
    (href : refId ∈ nodes.map Node.id) :
    (gmGroups nodes dir).findIdx (fun g => g.any (fun it => it.node = refId))
      < (gmGroups nodes dir).length := by
  refine List.findIdx_lt_length_of_exists ?_
  obtain ⟨nd, hnd, hid⟩ := List.mem_map.mp href
  have hsu : stripeId nd.q nd.r (alternateDirection dir)
      ∈ uniqueSids nodes (alternateDirection dir) :=
    (mem_uniqueSids nodes _ _).mpr ⟨nd, hnd, rfl⟩
  have hks : stripeId nd.q nd.r (alternateDirection dir)
      ∈ (if dir ∈ revDirs
        then (List.insertionSort (· ≤ ·) (uniqueSids nodes (alternateDirection dir))).reverse
        else List.insertionSort (· ≤ ·) (uniqueSids nodes (alternateDirection dir))) := by
    by_cases hrev : dir ∈ revDirs
    · rw [if_pos hrev]
      exact List.mem_reverse.mpr ((List.perm_insertionSort _ _).mem_iff.mpr hsu)
    · rw [if_neg hrev]
      exact (List.perm_insertionSort _ _).mem_iff.mpr hsu
  refine ⟨(nodes.filter (fun nd2 => stripeId nd2.q nd2.r (alternateDirection dir)
      = stripeId nd.q nd.r (alternateDirection dir))).map mkItem, ?_, ?_⟩
  · rw [gmGroups_eq nodes dir]
    exact List.mem_map_of_mem _ hks
  · refine List.any_eq_true.mpr ⟨mkItem nd, ?_, ?_⟩
    · exact List.mem_map_of_mem _ (List.mem_filter.mpr ⟨hnd, by simp⟩)
    · simp [mkItem, hid]

theorem sinv_final_active (n ref : Nat) (href : ref < n) (Sf : List Seg)
    (hSf : SInv n ref (Nat.clog 2 (max ref (n - 1 - ref) + 1)) Sf) :
    ∀ i, i < n → (Sf.getD i default).active = decide (i = ref) := by
  intro i hi
  have hpow : max ref (n - 1 - ref) + 1 ≤ 2 ^ Nat.clog 2 (max ref (n - 1 - ref) + 1) :=
    (Nat.le_pow_iff_clog_le (by omega)).mpr le_rfl
  rw [hSf.act i hi]
  by_cases hieq : i = ref
  · subst hieq
    have hod0 : offsetDist i i = 0 := by
      rw [offsetDist_le i i le_rfl]
      omega
    rw [hod0]
    simp
  · have hbound : 1 ≤ offsetDist ref i ∧ offsetDist ref i ≤ max ref (n - 1 - ref) := by
      rcases Nat.lt_trichotomy i ref with hir | hir | hir
      · rw [offsetDist_le ref i (by omega)]
        exact ⟨by omega, le_trans (by omega) (le_max_left _ _)⟩
      · exact absurd hir hieq
      · rw [offsetDist_ge ref i (by omega)]
        exact ⟨by omega, le_trans (by omega) (le_max_right _ _)⟩
    have hlt : offsetDist ref i < 2 ^ Nat.clog 2 (max ref (n - 1 - ref) + 1) := by omega
    rw [Nat.mod_eq_of_lt hlt]
    have hne0 : ¬(offsetDist ref i = 0) := by omega
    simp [hieq, hne0]

/-- Claim C5 amended: for every node set, recognized direction and reference
node id present in the set, the extremum search terminates with exactly one
surviving stripe, and that stripe is the one containing the reference node
(the engine's reference index) — not, in general, the stripe of highest dense
index. -/
theorem claim_C5_survivor_is_reference (nodes : List Node) (dir : String) (refId : Int)
    (hdir : dir ∈ recognizedDirs) (href : refId ∈ nodes.map Node.id) :
    ∃ Gf lines steps,
      gSendBeep nodes dir refId
          (Nat.clog 2 (max
            ((gmGroups nodes dir).findIdx (fun g => g.any (fun it => it.node = refId)))
            ((gmGroups nodes dir).length - 1
              - (gmGroups nodes dir).findIdx (fun g => g.any (fun it => it.node = refId)))
            + 1))
        = some (Gf,
            Nat.clog 2 (max
              ((gmGroups nodes dir).findIdx (fun g => g.any (fun it => it.node = refId)))
              ((gmGroups nodes dir).length - 1
                - (gmGroups nodes dir).findIdx (fun g => g.any (fun it => it.node = refId)))
              + 1), lines, steps)
      ∧ Gf.length = (gmGroups nodes dir).length
      ∧ ∀ i, i < (gmGroups nodes dir).length →
          ((Gf.getD i []).headD default).active
            = decide (i = (gmGroups nodes dir).findIdx
                (fun g => g.any (fun it => it.node = refId))) := by
  set G := gmGroups nodes dir with hGdef
  set find := G.findIdx (fun g => g.any (fun it => it.node = refId)) with hfinddef
  set k := G.length with hkdef
  have hfind : find < k := gmFind_lt nodes dir refId href
  have hnonempty : ∀ g ∈ G, g ≠ [] := gmGroups_ne_nil nodes dir
  have hgetne : G.getD find [] ≠ [] :=
    hnonempty _ (List.getElem?_mem (getElem?_of_lt _ find (by omega) []))
  have hG0ne : ∀ g ∈ G.set find (setAllP true (G.getD find [])), g ≠ [] := by
    intro g h
    rcases List.mem_or_eq_of_mem_set h with h | rfl
    · exact hnonempty g h
    · exact setAllP_ne_nil true _ hgetne
  have hfresh : G.map projG = List.replicate k ⟨false, false, true, []⟩ :=
    map_projG_gmGroups nodes dir
  have hG0proj : (G.set find (setAllP true (G.getD find []))).map projG = initState k find := by
    rw [List.map_set]
    have hval : projG (setAllP true (G.getD find [])) = ⟨true, false, true, []⟩ := by
      rw [projG_setAllP _ hgetne]
      have hfreshget : projG (G.getD find []) = ⟨false, false, true, []⟩ := by
        rw [getD_map_projG, hfresh, listGetD_eq, List.getElem?_replicate, if_pos hfind]
        rfl
      rw [hfreshget]
    rw [hval, hfresh]
    rfl
  obtain ⟨Sf, stf, hrun, hSf⟩ := sendBeepAux_run k find hfind
    (Nat.clog 2 (max find (k - 1 - find) + 1)) (initState k find) 0 0 le_rfl
    (by rw [Nat.sub_self]; exact initState_inv k find hfind)
  have hloop := gSendBeepAux_proj find (Nat.clog 2 (max find (k - 1 - find) + 1))
    (G.set find (setAllP true (G.getD find []))) 0 0 0 hG0ne
  rw [hG0proj] at hloop
  have hzero : (0 : Nat) + Nat.clog 2 (max find (k - 1 - find) + 1)
      = Nat.clog 2 (max find (k - 1 - find) + 1) := by omega
  rw [hzero] at hrun
  rw [hrun] at hloop
  simp only [Option.map_some'] at hloop
  obtain ⟨o, ho, hfo⟩ := Option.map_eq_some'.mp hloop
  obtain ⟨Gf, iters, lines, steps⟩ := o
  simp only [Prod.mk.injEq] at hfo
  obtain ⟨hproj, hiters⟩ := hfo
  refine ⟨Gf, lines, steps, ?_, ?_, ?_⟩
  · show gSendBeepAux find (Nat.clog 2 (max find (k - 1 - find) + 1))
        (G.set find (setAllP true (G.getD find []))) 0 0 0
      = some (Gf, Nat.clog 2 (max find (k - 1 - find) + 1), lines, steps)
    rw [ho, hiters]
  · have hlen := congrArg List.length hproj
    simp only [List.length_map] at hlen
    rw [hlen, hSf.len]
  · intro i hi
    have hact := sinv_final_active k find hfind Sf hSf i hi
    have hconv : ((Gf.getD i []).headD default).active = (Sf.getD i default).active := by
      have h1 : projG (Gf.getD i []) = (Gf.map projG).getD i default := getD_map_projG Gf i
      rw [hproj] at h1
      calc ((Gf.getD i []).headD default).active = (projG (Gf.getD i [])).active := rfl
        _ = (Sf.getD i default).active := by rw [h1]
    rw [hconv, hact]

/-- Witness for the amended claim C5 at the two-node set with direction "N"
and reference node 0. -/
theorem claim_C5_witness :
    "N" ∈ recognizedDirs ∧ (0 : Int) ∈ ([⟨0, 0, 0⟩, ⟨1, 1, 0⟩] : List Node).map Node.id ∧
    (∃ Gf lines steps,
      gSendBeep [⟨0, 0, 0⟩, ⟨1, 1, 0⟩] "N" 0
          (Nat.clog 2 (max
            ((gmGroups [⟨0, 0, 0⟩, ⟨1, 1, 0⟩] "N").findIdx
              (fun g => g.any (fun it => it.node = 0)))
            ((gmGroups [⟨0, 0, 0⟩, ⟨1, 1, 0⟩] "N").length - 1
              - (gmGroups [⟨0, 0, 0⟩, ⟨1, 1, 0⟩] "N").findIdx
                (fun g => g.any (fun it => it.node = 0)))
            + 1))
        = some (Gf,
            Nat.clog 2 (max
              ((gmGroups [⟨0, 0, 0⟩, ⟨1, 1, 0⟩] "N").findIdx
                (fun g => g.any (fun it => it.node = 0)))
              ((gmGroups [⟨0, 0, 0⟩, ⟨1, 1, 0⟩] "N").length - 1
                - (gmGroups [⟨0, 0, 0⟩, ⟨1, 1, 0⟩] "N").findIdx
                  (fun g => g.any (fun it => it.node = 0)))
              + 1), lines, steps)
      ∧ Gf.length = (gmGroups [⟨0, 0, 0⟩, ⟨1, 1, 0⟩] "N").length
      ∧ ∀ i, i < (gmGroups [⟨0, 0, 0⟩, ⟨1, 1, 0⟩] "N").length →
          ((Gf.getD i []).headD default).active
            = decide (i = (gmGroups [⟨0, 0, 0⟩, ⟨1, 1, 0⟩] "N").findIdx
                (fun g => g.any (fun it => it.node = 0)))) :=
  ⟨by decide, by decide,
    claim_C5_survivor_is_reference [⟨0, 0, 0⟩, ⟨1, 1, 0⟩] "N" 0 (by decide) (by decide)⟩
